import Mathlib

/-!
Verification of the uplink-statistics collector (`uplinks_stats.py`).

This file shallowly embeds the payload-extraction utilities, the per-device
command pipelines (Arista and Juniper) and the fleet scheduler of the
repository into Lean, and proves or refutes the frozen specification claims
about them.

Embedding conventions:
* Python values decoded from JSON are modelled by `PyVal` (an exact model of
  the `json.loads` value universe; floats are modelled as exact rationals,
  which agrees with floats on every payload the claims exercise).
* Python text is modelled as `List Char`; the string helpers used by the
  source (`find`, `split`, `strip`, `endswith`, `in`, `lower`) are defined
  below, character by character.
* Network I/O is modelled by oracles: a device is a record of responses, one
  field per command family, giving for each issued command the payload the
  session layer would have extracted (`Option PyVal`; `none` models an
  extraction timeout or malformed payload).
* Where Python would raise a `TypeError`/`AttributeError` on an ill-typed
  payload (a path no claim exercises), the embedding is lenient and yields a
  neutral value (`PyVal.none`, an empty list, an empty string); every theorem
  below is either universally true of the lenient superset of behaviours or
  is evaluated on well-typed payloads where the embedding agrees with the
  source exactly.
-/

set_option autoImplicit false

namespace UplinkStats

/-! ## Python value model -/

mutual

/-- Model of a Python value decoded by `json.loads`: `None`, booleans,
`int`s, `float`s (as exact rationals), `str`s, `list`s and `dict`s. -/
inductive PyVal where
  | none
  | bool (b : Bool)
  | int (n : Int)
  | float (q : ℚ)
  | str (s : String)
  | list (xs : PyList)
  | dict (kvs : PyDict)
  deriving DecidableEq

/-- A list of Python values (first-order, so that equality is derivable). -/
inductive PyList where
  | nil
  | cons (hd : PyVal) (tl : PyList)
  deriving DecidableEq

/-- A Python dict with string keys, as an ordered association list. -/
inductive PyDict where
  | nil
  | cons (k : String) (v : PyVal) (tl : PyDict)
  deriving DecidableEq

end

/-- Convert the first-order list into a Lean list. -/
def PyList.toList : PyList → List PyVal
  | .nil => []
  | .cons hd tl => hd :: tl.toList

/-- Build the first-order list from a Lean list. -/
def PyList.ofList : List PyVal → PyList
  | [] => .nil
  | hd :: tl => .cons hd (PyList.ofList tl)

/-- Convert the dict into a Lean association list. -/
def PyDict.toList : PyDict → List (String × PyVal)
  | .nil => []
  | .cons k v tl => (k, v) :: tl.toList

/-- Build a dict from a Lean association list. -/
def PyDict.ofList : List (String × PyVal) → PyDict
  | [] => .nil
  | (k, v) :: tl => .cons k v (PyDict.ofList tl)

/-- Notation-free constructor for list payloads. -/
def pyl (xs : List PyVal) : PyVal := .list (PyList.ofList xs)

/-- Notation-free constructor for dict payloads. -/
def pyd (kvs : List (String × PyVal)) : PyVal := .dict (PyDict.ofList kvs)

/-- First value bound to key `k`, if any (Python dicts after `json.loads`
have unique keys, the parser below enforces this). -/
def PyDict.get? : PyDict → String → Option PyVal
  | .nil, _ => Option.none
  | .cons k v tl, key => if k = key then some v else tl.get? key

/-- Python truthiness of a value (`bool(v)`). -/
def PyVal.truthy : PyVal → Bool
  | .none => false
  | .bool b => b
  | .int n => n ≠ 0
  | .float q => q ≠ 0
  | .str s => s ≠ ""
  | .list xs => xs ≠ .nil
  | .dict kvs => kvs ≠ .nil

/-- Model of `d.get(k)`: `None` when the key is missing.  Lenient on
non-dicts (Python raises `AttributeError` there; no claim exercises it). -/
def pyGet (v : PyVal) (key : String) : PyVal :=
  match v with
  | .dict kvs => (kvs.get? key).getD .none
  | _ => .none

/-- Model of Python `a or b`. -/
def pyOr (a b : PyVal) : PyVal := if a.truthy then a else b

/-- Model of `x.get(k) or default`. -/
def pyGetOr (v : PyVal) (key : String) (dflt : PyVal) : PyVal :=
  pyOr (pyGet v key) dflt

/-- String content of a value in a context where the source calls a `str`
method on it.  Lenient: non-strings give `""` (Python raises there). -/
def PyVal.asStr : PyVal → String
  | .str s => s
  | _ => ""

/-- Model of iterating a Python value in a `for` loop: lists yield their
elements, dicts their keys, strings their characters.  Lenient on the
remaining (non-iterable) values. -/
def pyIter : PyVal → List PyVal
  | .list xs => xs.toList
  | .dict kvs => kvs.toList.map (fun kv => .str kv.1)
  | .str s => s.data.map (fun c => .str (String.mk [c]))
  | _ => []

/-- Model of the recurring source idiom
`if not isinstance(x, list): x = [x] if x else []`. -/
def pyEnsureList (v : PyVal) : List PyVal :=
  match v with
  | .list xs => xs.toList
  | _ => if v.truthy then [v] else []

/-! ## Character-level string helpers (Python `str` operations) -/

/-- Whitespace predicate used by `str.strip()` (ASCII fragment). -/
def pyws (c : Char) : Bool := c.isWhitespace

/-- Model of `s.strip()` on character lists. -/
def pystrip (cs : List Char) : List Char :=
  ((cs.dropWhile pyws).reverse.dropWhile pyws).reverse

/-- Model of `s.split(sep)` for a one-character separator. -/
def pysplit (sep : Char) : List Char → List (List Char)
  | [] => [[]]
  | c :: t =>
    let r := pysplit sep t
    if c = sep then [] :: r
    else
      match r with
      | [] => [[c]]
      | h :: rs => (c :: h) :: rs

/-- Model of `needle in hay` on character lists. -/
def listSubOf (needle : List Char) : List Char → Bool
  | [] => needle.isEmpty
  | c :: t => needle.isPrefixOf (c :: t) || listSubOf needle t

/-- Model of `needle in hay` on strings. -/
def strSubOf (needle hay : String) : Bool := listSubOf needle.data hay.data

/-- Model of `s.endswith(suffix)` for a one-character suffix. -/
def pyEndsWithChar (cs : List Char) (c : Char) : Bool :=
  match cs.getLast? with
  | some d => d = c
  | Option.none => false

/-! ## Model of `json.loads`

A fuel-indexed recursive-descent reading of the JSON grammar accepted by
Python's `json.loads` (strict mode): objects, arrays, strings with the
standard escapes, integers and decimal floats, `true`/`false`/`null`,
surrounded by JSON whitespace, with nothing but whitespace allowed after
the value.  (The non-standard `NaN`/`Infinity` literals Python also accepts
are not modelled; no claim exercises them.)  Duplicate object keys keep the
last value at the position of the first occurrence, as Python dicts do. -/

/-- JSON whitespace (the exact set `json` skips). -/
def jsonWs (c : Char) : Bool := c = ' ' || c = '\t' || c = '\n' || c = '\r'

/-- Skip JSON whitespace. -/
def skipWs (cs : List Char) : List Char := cs.dropWhile jsonWs

/-- Value of a hex digit. -/
def hexVal (c : Char) : Option Nat :=
  if '0' ≤ c ∧ c ≤ '9' then some (c.toNat - '0'.toNat)
  else if 'a' ≤ c ∧ c ≤ 'f' then some (c.toNat - 'a'.toNat + 10)
  else if 'A' ≤ c ∧ c ≤ 'F' then some (c.toNat - 'A'.toNat + 10)
  else Option.none

/-- Parse the body of a JSON string after the opening quote; returns the
decoded characters and the remainder after the closing quote. -/
def parseStrBody : List Char → List Char → Option (List Char × List Char)
  | [], _ => Option.none
  | '"' :: rest, acc => some (acc.reverse, rest)
  | '\\' :: e :: rest, acc =>
    match e with
    | '"' => parseStrBody rest ('"' :: acc)
    | '\\' => parseStrBody rest ('\\' :: acc)
    | '/' => parseStrBody rest ('/' :: acc)
    | 'b' => parseStrBody rest ('\x08' :: acc)
    | 'f' => parseStrBody rest ('\x0c' :: acc)
    | 'n' => parseStrBody rest ('\n' :: acc)
    | 'r' => parseStrBody rest ('\r' :: acc)
    | 't' => parseStrBody rest ('\t' :: acc)
    | 'u' =>
      match rest with
      | h1 :: h2 :: h3 :: h4 :: rest' =>
        match hexVal h1, hexVal h2, hexVal h3, hexVal h4 with
        | some a, some b, some c, some d =>
          parseStrBody rest' (Char.ofNat (((a * 16 + b) * 16 + c) * 16 + d) :: acc)
        | _, _, _, _ => Option.none
      | _ => Option.none
    | _ => Option.none
  | c :: rest, acc =>
    if c.toNat < 0x20 then Option.none else parseStrBody rest (c :: acc)

/-- Digits of a natural number read from a digit run. -/
def digitsToNat (ds : List Char) : Nat :=
  ds.foldl (fun n c => n * 10 + (c.toNat - '0'.toNat)) 0

/-- Parse a JSON number (strict grammar: optional minus, integer part with
no leading zero, optional fraction, optional exponent). -/
def parseNumber (cs : List Char) : Option (PyVal × List Char) :=
  let (neg, cs1) :=
    match cs with
    | '-' :: t => (true, t)
    | _ => (false, cs)
  let intDs := cs1.takeWhile Char.isDigit
  let cs2 := cs1.dropWhile Char.isDigit
  if intDs = [] then Option.none
  else if intDs.head? = some '0' ∧ intDs.length > 1 then Option.none
  else
    let (fracDs, cs3, hasFrac) :=
      match cs2 with
      | '.' :: t =>
        (t.takeWhile Char.isDigit, t.dropWhile Char.isDigit, true)
      | _ => ([], cs2, false)
    if hasFrac ∧ fracDs = [] then Option.none
    else
      let (expv, cs5, hasExp, expOk) :=
        match cs3 with
        | 'e' :: t | 'E' :: t =>
          let (esign, t1) :=
            match t with
            | '+' :: u => ((1 : Int), u)
            | '-' :: u => ((-1 : Int), u)
            | _ => ((1 : Int), t)
          let expDs := t1.takeWhile Char.isDigit
          (esign * (digitsToNat expDs : Int), t1.dropWhile Char.isDigit, true,
            !expDs.isEmpty)
        | _ => ((0 : Int), cs3, false, true)
      if expOk = false then Option.none
      else
        let mantissa : Int := (digitsToNat (intDs ++ fracDs) : Int)
        let signed : Int := if neg then -mantissa else mantissa
        if hasFrac ∨ hasExp then
          let base : ℚ := (signed : ℚ) / ((10 : ℚ) ^ fracDs.length)
          let scaled : ℚ :=
            if 0 ≤ expv then base * (10 : ℚ) ^ expv.toNat
            else base / (10 : ℚ) ^ (-expv).toNat
          some (.float scaled, cs5)
        else some (.int signed, cs5)

/-- Insert a key into an object under construction: Python-dict semantics,
the last value wins but the key keeps its first position. -/
def dictInsert (kvs : List (String × PyVal)) (k : String) (v : PyVal) :
    List (String × PyVal) :=
  if (kvs.lookup k).isSome then
    kvs.map (fun p => if p.1 = k then (k, v) else p)
  else kvs ++ [(k, v)]

mutual

/-- Parse one JSON value (after skipping leading whitespace). -/
def parseVal : Nat → List Char → Option (PyVal × List Char)
  | 0, _ => Option.none
  | fuel + 1, cs =>
    match skipWs cs with
    | '{' :: t => parseObjItems fuel (skipWs t) []
    | '[' :: t => parseArrItems fuel (skipWs t) []
    | '"' :: t =>
      match parseStrBody t [] with
      | some (body, rest) => some (.str (String.mk body), rest)
      | Option.none => Option.none
    | 't' :: 'r' :: 'u' :: 'e' :: t => some (.bool true, t)
    | 'f' :: 'a' :: 'l' :: 's' :: 'e' :: t => some (.bool false, t)
    | 'n' :: 'u' :: 'l' :: 'l' :: t => some (.none, t)
    | rest => parseNumber rest

/-- Parse the items of an array after `[` (whitespace already skipped);
`acc` holds the items parsed so far, in reverse. -/
def parseArrItems : Nat → List Char → List PyVal → Option (PyVal × List Char)
  | 0, _, _ => Option.none
  | _ + 1, ']' :: t, acc =>
    if acc = [] then some (pyl [], t) else Option.none
  | fuel + 1, cs, acc =>
    match parseVal fuel cs with
    | some (v, rest) =>
      match skipWs rest with
      | ',' :: t => parseArrItems fuel (skipWs t) (v :: acc)
      | ']' :: t => some (pyl (acc.reverse ++ [v]), t)
      | _ => Option.none
    | Option.none => Option.none

/-- Parse the members of an object after the opening brace (whitespace
already skipped); `acc` holds the members parsed so far. -/
def parseObjItems : Nat → List Char → List (String × PyVal) →
    Option (PyVal × List Char)
  | 0, _, _ => Option.none
  | _ + 1, '}' :: t, acc =>
    if acc = [] then some (pyd [], t) else Option.none
  | fuel + 1, '"' :: t, acc =>
    match parseStrBody t [] with
    | some (body, rest1) =>
      match skipWs rest1 with
      | ':' :: rest2 =>
        match parseVal fuel rest2 with
        | some (v, rest3) =>
          let acc' := dictInsert acc (String.mk body) v
          match skipWs rest3 with
          | ',' :: t2 =>
            match skipWs t2 with
            | '"' :: t3 => parseObjItems fuel ('"' :: t3) acc'
            | _ => Option.none
          | '}' :: t2 => some (pyd acc', t2)
          | _ => Option.none
        | Option.none => Option.none
      | _ => Option.none
    | Option.none => Option.none
  | _ + 1, _, _ => Option.none

end

/-- Model of `json.loads`: parse one value and require only whitespace to
follow. -/
def json_loads (cs : List Char) : Option PyVal :=
  match parseVal (2 * cs.length + 4) cs with
  | some (v, rest) => if skipWs rest = [] then some v else Option.none
  | Option.none => Option.none

/-! ## The payload extractor `extract_json` (src/uplinks_stats.py:73-89)

Python scans from the first `{`, tracking brace depth, and on depth first
returning to zero attempts `json.loads` on that exact slice, returning
`None` on a decode error or when depth never returns to zero. -/

/-- Depth contribution of one character. -/
def braceDelta (c : Char) : Int :=
  if c = '{' then 1 else if c = '}' then -1 else 0

/-- Length of the prefix consumed when brace depth (starting at `d`) first
returns to zero on a `}`; `none` when that never happens. -/
def scanLen : List Char → Int → Option Nat
  | [], _ => Option.none
  | c :: t, d =>
    let d' := d + braceDelta c
    if c = '}' ∧ d' = 0 then some 1
    else (scanLen t d').map (fun n => n + 1)

/-- Test for a non-`{` character (the skip loop of `text.find("{")`). -/
def notLBrace (c : Char) : Bool := c ≠ '{'

/-- Embedding of `extract_json`: find the first `{` (drop the characters
before it), take the slice where brace depth first returns to zero, and
parse exactly that slice. -/
def extract_json (cs : List Char) : Option PyVal :=
  match scanLen (cs.dropWhile notLBrace) 0 with
  | some n => json_loads ((cs.dropWhile notLBrace).take n)
  | Option.none => Option.none

/-- Net brace depth of a character sequence. -/
def sumDelta (cs : List Char) : Int := (cs.map braceDelta).sum

/-- Spec-side notion for C4: a garbage string "contains no unbalanced
brace" when its braces form a balanced (Dyck) sequence. -/
def BalancedGarbage (g : List Char) : Prop :=
  sumDelta g = 0 ∧ ∀ n, n ≤ g.length → 0 ≤ sumDelta (g.take n)

/-- Spec-side notion: `j` is a brace-balanced block starting at its first
character, whose brace depth stays positive strictly inside it — i.e. `j`
itself is exactly the first balanced slice of any text starting with it. -/
def StrictBalanced (j : List Char) : Prop :=
  j.head? = some '{' ∧ sumDelta j = 0 ∧
    ∀ m, m < j.length → 1 ≤ m → 1 ≤ sumDelta (j.take m)

/-! ## The prompt heuristic `_looks_like_cli_prompt` (src/uplinks_stats.py:631-641) -/

/-- Model of `text.split("\n")[-1] if "\n" in text else text` — the raw
last line of the buffer. -/
def lastLineRaw (cs : List Char) : List Char :=
  if listSubOf ['\n'] cs then (pysplit '\n' cs).getLastD [] else cs

/-- Embedding of `_looks_like_cli_prompt`: the stripped last line
(`last_line` in the source, written out here) must end in `>` or `#` and
contain `@`; empty buffers are rejected up front. -/
def _looks_like_cli_prompt (cs : List Char) : Bool :=
  if cs = [] ∨ pystrip cs = [] then false
  else if pystrip (lastLineRaw cs) = [] then false
  else if ¬ (pyEndsWithChar (pystrip (lastLineRaw cs)) '>' ∨
      pyEndsWithChar (pystrip (lastLineRaw cs)) '#') then false
  else listSubOf ['@'] (pystrip (lastLineRaw cs))

/-- Spec-side reading of `promptLooksLikeCli` (C6): the last line of the
text (ignoring surrounding whitespace) ends with `>` or `#` and carries a
`user@host`-style marker, i.e. contains `@`. -/
def PromptSpec (cs : List Char) : Prop :=
  (pyEndsWithChar (pystrip (lastLineRaw cs)) '>' = true ∨
    pyEndsWithChar (pystrip (lastLineRaw cs)) '#' = true) ∧
  '@' ∈ pystrip (lastLineRaw cs)

/-! ## Juniper JSON field helpers (src/uplinks_stats.py:92-178) -/

/-- Model of `str(val)` for the scalar values that reach it here.  Floats
are rendered via `ℚ`'s `toString` (Python's float repr is not modelled; no
claim exercises a float in a string position). -/
def pyStrRender : PyVal → String
  | .str s => s
  | .int n => toString n
  | .bool b => if b then "True" else "False"
  | .float q => toString q
  | .none => "None"
  | .list _ => ""
  | .dict _ => ""

/-- Model of `s.strip()` on strings. -/
def pystripS (s : String) : String := String.mk (pystrip s.data)

/-- Model of `s.lower()` (ASCII fragment). -/
def pylowerS (s : String) : String := String.mk (s.data.map Char.toLower)

/-- Model of `s.endswith(suffix)`. -/
def strEndsWith (s suffix : String) : Bool :=
  suffix.data.reverse.isPrefixOf s.data.reverse

/-- Model of `s.startswith(pre)`. -/
def strStartsWith (s pre : String) : Bool := pre.data.isPrefixOf s.data

/-- Embedding of `_juniper_data`: from a Junos field (a list holding a
dict with key `data`) pull the stripped string, `none` if empty/absent. -/
def _juniper_data (field : PyVal) : Option String :=
  if field.truthy = false then Option.none
  else
    match field with
    | .list (.cons first _) =>
      match first with
      | .dict kvs =>
        match kvs.get? "data" with
        | some v =>
          if v = .none then Option.none
          else
            let s := pystripS (pyStrRender v)
            if s = "" then Option.none else some s
        | Option.none => Option.none
      | _ => Option.none
    | _ => Option.none

/-- Model of `(lst[0].get("data") or "").strip()` where
`lst = iface_dict.get(key) or [{}]` (the body of
`_juniper_iface_name_desc` for one key). -/
def _juniper_first_data_str (v : PyVal) : String :=
  let lst := if v.truthy then v else pyl [pyd []]
  let first : PyVal :=
    match lst with
    | .list (.cons f _) => f
    | _ => pyd []
  pystripS (pyOr (pyGet first "data") (.str "")).asStr

/-- Embedding of `_juniper_iface_name_desc`. -/
def _juniper_iface_name_desc (iface_dict : PyVal) : String × String :=
  (_juniper_first_data_str (pyGet iface_dict "name"),
    _juniper_first_data_str (pyGet iface_dict "description"))

/-- Embedding of `_juniper_iface_oper_status`. -/
def _juniper_iface_oper_status (iface_dict : PyVal) : Option String :=
  _juniper_data (pyGet iface_dict "oper-status")

/-- Embedding of `_juniper_uplink_is_unit0`: a name with no dot (physical)
or whose final dot-component is `0` (logical unit 0). -/
def _juniper_uplink_is_unit0 (name : String) : Bool :=
  if name = "" then false
  else if listSubOf ['.'] name.data = false then true
  else (pysplit '.' name.data).getLastD [] = ['0']

/-- Per-interface body of the loops of `parse_juniper_uplinks`
(src/uplinks_stats.py:158-177, identical for physical and logical
entries): keep `(name, desc)` when the name is nonempty, the description
carries `Uplink:`, the oper-status filter passes (only active when
`require_link_up` is set: an entry with a present oper-status other than
`up` is skipped), and the name is physical or unit 0. -/
def juniperKeep (iface : PyVal) (require_link_up : Bool) :
    Option (String × String) :=
  let nd := _juniper_iface_name_desc iface
  let operBad : Bool :=
    match _juniper_iface_oper_status iface with
    | some oper => pylowerS oper ≠ "up"
    | Option.none => false
  if nd.1 ≠ "" ∧ strSubOf "Uplink:" nd.2 then
    if require_link_up ∧ operBad then Option.none
    else if _juniper_uplink_is_unit0 nd.1 = false then Option.none
    else some nd
  else Option.none

/-- Model of the idiom `xs = d.get(key) or []; if isinstance(xs, dict):
xs = [xs]`, followed by iteration. -/
def pyInfosOf (v : PyVal) (key : String) : List PyVal :=
  let infos := pyGetOr v key (pyl [])
  match infos with
  | .dict kvs => [.dict kvs]
  | other => pyIter other

/-- Model of `for x in info.get(key) or []`. -/
def juniperIfaceList (info : PyVal) (key : String) : List PyVal :=
  pyIter (pyGetOr info key (pyl []))

/-- Embedding of `parse_juniper_uplinks`: uplink-marked physical and
logical interfaces from the `show interfaces descriptions` JSON, unit-0
only, optionally filtered to oper-status `up`. -/
def parse_juniper_uplinks (json_data : PyVal)
    (require_link_up : Bool := false) : List (String × String) :=
  (pyInfosOf json_data "interface-information").flatMap fun info =>
    ((juniperIfaceList info "physical-interface").filterMap fun ph =>
      juniperKeep ph require_link_up) ++
    ((juniperIfaceList info "logical-interface").filterMap fun log =>
      juniperKeep log require_link_up)

/-! ## Arista JSON helpers (src/uplinks_stats.py:328-356) -/

/-- Model of `d.items()`: the dict's entries; lenient on non-dicts. -/
def pyItems : PyVal → List (String × PyVal)
  | .dict kvs => kvs.toList
  | _ => []

/-- Per-entry body of the `parse_arista_uplinks` loop
(src/uplinks_stats.py:332-337): skip non-dict entries, keep the pair when
the stripped description carries `Uplink:`. -/
def aristaKeep (nv : String × PyVal) : Option (String × String) :=
  match nv.2 with
  | .dict kvs =>
    let desc := pystripS (pyOr (pyGet (.dict kvs) "description") (.str "")).asStr
    if strSubOf "Uplink:" desc then some (nv.1, desc) else Option.none
  | _ => Option.none

/-- Embedding of `parse_arista_uplinks`: names whose (stripped)
description carries `Uplink:`, from `interfaceDescriptions`. -/
def parse_arista_uplinks (json_data : PyVal) : List (String × String) :=
  (pyItems (pyGetOr json_data "interfaceDescriptions" (pyd []))).filterMap
    aristaKeep

/-- Embedding of `_arista_interface_link_up`: false on an empty/absent
object, on `lineProtocolStatus == "down"`, and on `interfaceStatus` in
`{disabled, notconnect, down}`; true otherwise. -/
def _arista_interface_link_up (if_obj : PyVal) : Bool :=
  if if_obj.truthy = false then false
  else
    let line_proto :=
      pylowerS (pystripS (pyOr (pyGet if_obj "lineProtocolStatus") (.str "")).asStr)
    let iface_status :=
      pylowerS (pystripS (pyOr (pyGet if_obj "interfaceStatus") (.str "")).asStr)
    if line_proto = "down" then false
    else if iface_status = "disabled" ∨ iface_status = "notconnect" ∨
        iface_status = "down" then false
    else true

/-- Insert a space between every alphabetic character and a directly
following digit — the effect of `re.sub(r"([a-zA-Z]+)(\d)", r"\1 \2", s)`. -/
def insertSpaces : List Char → List Char
  | [] => []
  | [c] => [c]
  | c :: d :: t =>
    if c.isAlpha ∧ d.isDigit then c :: ' ' :: insertSpaces (d :: t)
    else c :: insertSpaces (d :: t)

/-- Embedding of `arista_cli_interface_name`:
`Ethernet72/1 → ethernet 72/1`. -/
def arista_cli_interface_name (name : String) : String :=
  pylowerS (String.mk (pystrip (insertSpaces name.data)))

/-! ## Parsed-XML model (`xml.etree.ElementTree` trees)

The Junos XML fallback parses the raw buffer with `ET.fromstring` (library
code outside this repository) and then walks the tree.  The tree type and
the walk are modelled here; the raw-text-to-tree step itself is an oracle
supplied as part of the device model below. -/

mutual

/-- A parsed XML element: qualified tag, optional text, children. -/
inductive XElem where
  | mk (tag : String) (text : Option String) (children : XForest)
  deriving DecidableEq

/-- Children of an XML element. -/
inductive XForest where
  | nil
  | cons (e : XElem) (f : XForest)
  deriving DecidableEq

end

/-- Tag of an element. -/
def XElem.tag : XElem → String
  | .mk t _ _ => t

/-- Text of an element. -/
def XElem.text : XElem → Option String
  | .mk _ x _ => x

/-- Convert a forest to a Lean list. -/
def XForest.toList : XForest → List XElem
  | .nil => []
  | .cons e f => e :: XForest.toList f

/-- Children of an element, as a Lean list. -/
def XElem.childList : XElem → List XElem
  | .mk _ _ c => XForest.toList c

mutual

/-- Model of `elem.iter()`: the element itself followed by all
descendants, in document order. -/
def XElem.iterAll : XElem → List XElem
  | .mk t x c => .mk t x c :: XForest.iterAll c

/-- Iterate a forest in document order. -/
def XForest.iterAll : XForest → List XElem
  | .nil => []
  | .cons e f => XElem.iterAll e ++ XForest.iterAll f

end

/-- Model of `tag.split("}")[-1] if "}" in tag else tag`: strip an XML
namespace from a qualified tag. -/
def xmlLocalName (tag : String) : String :=
  if listSubOf ['\x7d'] tag.data then
    String.mk ((pysplit '\x7d' tag.data).getLastD [])
  else tag

/-- Truthiness of `child.text` in Python: a present, nonempty string. -/
def xmlTextTruthy (e : XElem) : Bool :=
  match e.text with
  | some s => s ≠ ""
  | Option.none => false

/-- Embedding of `_juniper_xml_elem_text`: the stripped text of the first
`data` child with truthy text, else the element's own text. -/
def _juniper_xml_elem_text (e : XElem) : String :=
  match e.childList.find? (fun c => xmlLocalName c.tag = "data" ∧ xmlTextTruthy c) with
  | some c => pystripS ((c.text).getD "")
  | Option.none => pystripS ((e.text).getD "")

/-- Embedding of `_juniper_xml_child`: first child with the given local
tag name. -/
def _juniper_xml_child (e : XElem) (local_name : String) : Option XElem :=
  e.childList.find? (fun c => xmlLocalName c.tag = local_name)

/-- Embedding of `_juniper_xml_iface_name_desc_oper`. -/
def _juniper_xml_iface_name_desc_oper (e : XElem) :
    String × String × Option String :=
  let name := match _juniper_xml_child e "name" with
    | some el => _juniper_xml_elem_text el
    | Option.none => ""
  let desc := match _juniper_xml_child e "description" with
    | some el => _juniper_xml_elem_text el
    | Option.none => ""
  let oper := match _juniper_xml_child e "oper-status" with
    | some el => some (_juniper_xml_elem_text el)
    | Option.none => Option.none
  (name, desc, oper)

/-- Embedding of `parse_juniper_uplinks_from_xml` (the `debug_cb` logging
hook of the source has no effect on the result and is omitted): walk all
`physical-interface`/`logical-interface` nodes and keep uplink-marked
unit-0 entries, optionally filtered on oper-status. -/
def parse_juniper_uplinks_from_xml (xml_root : XElem)
    (require_link_up : Bool := false) : List (String × String) :=
  xml_root.iterAll.filterMap fun elem =>
    let tag := xmlLocalName elem.tag
    if tag ≠ "physical-interface" ∧ tag ≠ "logical-interface" then Option.none
    else
      let ndo := _juniper_xml_iface_name_desc_oper elem
      let operBad : Bool :=
        match ndo.2.2 with
        | some oper => pylowerS oper ≠ "up"
        | Option.none => false
      if ndo.1 = "" ∨ strSubOf "Uplink:" ndo.2.1 = false then Option.none
      else if require_link_up ∧ operBad then Option.none
      else if _juniper_uplink_is_unit0 ndo.1 = false then Option.none
      else some (ndo.1, ndo.2.1)

/-- Embedding of `_parse_junos_rpc_reply_and_find_interface_information`:
require a `<rpc-reply>...</rpc-reply>` span in the raw text, hand the
sliced document to the (oracle-supplied) XML parse, and collect every
`interface-information` element of the resulting tree.  `parsed` models
`ET.fromstring` applied to the slice (`none` = `ET.ParseError`). -/
def junosRpcReplyRoots (xml_text : List Char) (parsed : Option XElem) :
    List XElem :=
  if listSubOf "<rpc-reply".data xml_text = false then []
  else if listSubOf "</rpc-reply>".data xml_text = false then []
  else
    match parsed with
    | Option.none => []
    | some root =>
      root.iterAll.filter (fun e => xmlLocalName e.tag = "interface-information")

/-! ## Juniper numeric/field helpers (src/uplinks_stats.py:118-134, 773-949) -/

/-- Remove every occurrence of `pat` from `cs` (Python `s.replace(pat, "")`). -/
def removeAll (pat : List Char) (cs : List Char) : List Char :=
  if h : pat.isPrefixOf cs ∧ pat ≠ [] then
    removeAll pat (cs.drop pat.length)
  else
    match cs with
    | [] => []
    | c :: t => c :: removeAll pat t
termination_by cs.length
decreasing_by
  · have hp : pat <+: cs := List.isPrefixOf_iff_prefix.mp h.1
    have h1 : pat.length ≤ cs.length := hp.length_le
    have h2 : 0 < pat.length := List.length_pos.mpr h.2
    simp only [List.length_drop]
    omega
  · simp

/-- Parse a decimal floating literal the way Python's `float()` does on
the digit forms that occur here (optional sign, digits, optional fraction,
optional exponent); exact, over `ℚ`. -/
def pyFloatParse (cs0 : List Char) : Option ℚ :=
  let cs := pystrip cs0
  let (neg, cs1) :=
    match cs with
    | '-' :: t => (true, t)
    | '+' :: t => (false, t)
    | _ => (false, cs)
  let intDs := cs1.takeWhile Char.isDigit
  let cs2 := cs1.dropWhile Char.isDigit
  let (fracDs, cs3) :=
    match cs2 with
    | '.' :: t => (t.takeWhile Char.isDigit, t.dropWhile Char.isDigit)
    | _ => ([], cs2)
  if intDs = [] ∧ fracDs = [] then Option.none
  else
    let (expv, cs5, expOk) :=
      match cs3 with
      | 'e' :: t | 'E' :: t =>
        let (esign, t1) :=
          match t with
          | '+' :: u => ((1 : Int), u)
          | '-' :: u => ((-1 : Int), u)
          | _ => ((1 : Int), t)
        let expDs := t1.takeWhile Char.isDigit
        (esign * (digitsToNat expDs : Int), t1.dropWhile Char.isDigit,
          !expDs.isEmpty)
      | _ => ((0 : Int), cs3, true)
    if expOk = false ∨ cs5 ≠ [] then Option.none
    else
      let mantissa : Int := (digitsToNat (intDs ++ fracDs) : Int)
      let signed : Int := if neg then -mantissa else mantissa
      let base : ℚ := (signed : ℚ) / ((10 : ℚ) ^ fracDs.length)
      some (if 0 ≤ expv then base * (10 : ℚ) ^ expv.toNat
        else base / (10 : ℚ) ^ (-expv).toNat)

/-- Model of Python `int(x)` on a float: truncation toward zero. -/
def truncQ (q : ℚ) : Int := if 0 ≤ q then ⌊q⌋ else -⌊-q⌋

/-- Embedding of `_juniper_speed_to_bps`: `10gbps`/`1000mbps`/... to bps. -/
def _juniper_speed_to_bps (speed_str : Option String) : Option Int :=
  match speed_str with
  | Option.none => Option.none
  | some s0 =>
    if s0 = "" then Option.none
    else
      let s := (pystrip (pylowerS s0).data).filter (fun c => c ≠ ' ')
      let sStr := String.mk s
      if strEndsWith sStr "gbps" then
        (pyFloatParse (s.take (s.length - 4))).map (fun q => truncQ (q * 1000000000))
      else if strEndsWith sStr "mbps" then
        (pyFloatParse (s.take (s.length - 4))).map (fun q => truncQ (q * 1000000))
      else if strEndsWith sStr "kbps" then
        (pyFloatParse (s.take (s.length - 4))).map (fun q => truncQ (q * 1000))
      else if strEndsWith sStr "bps" ∨ (s ≠ [] ∧ s.all Char.isDigit) then
        let stripped := removeAll "bps".data s
        let arg := if stripped = [] then s else stripped
        (pyFloatParse arg).map truncQ
      else Option.none

/-- Canonical per-interface statistics extracted from a Junos
`physical-interface` JSON element, as built by `_parse_juniper_phy_iface`
(same keys as the Arista rows). -/
structure JuniperPhyStats where
  name : String
  description : String
  mediaType : Option String
  bandwidth : Option Int
  duplex : Option String
  physicalAddress : Option String
  mtu : Option Int
  txPower : Option ℚ
  forwardingModel : Option String
  deriving DecidableEq

/-- Embedding of `_parse_juniper_phy_iface`. -/
def _parse_juniper_phy_iface (ph : PyVal) : JuniperPhyStats :=
  let name := (_juniper_data (pyGet ph "name")).getD ""
  let desc := (_juniper_data (pyGet ph "description")).getD ""
  let speed_str := _juniper_data (pyGet ph "speed")
  let bandwidth := _juniper_speed_to_bps speed_str
  let mtu_raw := _juniper_data (pyGet ph "mtu")
  let mtu : Option Int :=
    match mtu_raw with
    | some s =>
      if s ≠ "" ∧ s.data ≠ [] ∧ s.data.all Char.isDigit then
        some (digitsToNat s.data : Int)
      else Option.none
    | Option.none => Option.none
  let mac := _juniper_data (pyGet ph "current-physical-address")
  let duplex_raw := _juniper_data (pyGet ph "link-type")
  let duplex0 : Option String :=
    match duplex_raw with
    | some dr =>
      if dr ≠ "" then
        let d := pylowerS dr
        if strSubOf "full" d then some "full"
        else if strSubOf "half" d then some "half"
        else some dr
      else Option.none
    | Option.none => Option.none
  let duplex : Option String :=
    match duplex0, bandwidth with
    | Option.none, some b => if 10000000000 ≤ b then some "full" else Option.none
    | d, _ => d
  { name := name, description := desc, mediaType := Option.none,
    bandwidth := bandwidth, duplex := duplex, physicalAddress := mac,
    mtu := mtu, txPower := Option.none, forwardingModel := Option.none }

/-- Fuel-indexed worker for `dedupFirst` (the fuel, at least the list
length, makes the recursion structural so that it reduces). -/
def dedupFirstGo : Nat → List String → List String
  | _, [] => []
  | 0, l => l
  | fuel + 1, x :: xs => x :: dedupFirstGo fuel (xs.filter (fun y => y ≠ x))

/-- Deduplicate keeping the first occurrence (insertion-ordered reading
of the source's `seen`-set idioms; Python's set iteration order is
unspecified, membership is what matters). -/
def dedupFirst (l : List String) : List String := dedupFirstGo l.length l

/-- Fuel-indexed worker for `dedupByName`. -/
def dedupByNameGo : Nat → List (String × String) → List (String × String)
  | _, [] => []
  | 0, l => l
  | fuel + 1, p :: ps => p :: dedupByNameGo fuel (ps.filter (fun q => q.1 ≠ p.1))

/-- Deduplicate `(name, desc)` pairs by name, keeping the first
occurrence — the `seen`-set comprehension at src/uplinks_stats.py:1026. -/
def dedupByName (l : List (String × String)) : List (String × String) :=
  dedupByNameGo l.length l

/-- Embedding of `_juniper_lacp_member_names`: LAG member names from the
`show lacp interfaces` JSON, without duplicates. -/
def _juniper_lacp_member_names (lacp_json : PyVal) : List String :=
  dedupFirst
    ((pyInfosOf lacp_json "lacp-interface-information-list").flatMap fun lst =>
      (pyEnsureList (pyGetOr lst "lacp-interface-information" (pyl []))).flatMap
        fun blk =>
          ((pyIter (pyGetOr blk "lag-lacp-state" (pyl []))).filterMap fun st =>
            _juniper_data (pyGet st "name")) ++
          ((pyIter (pyGetOr blk "lag-lacp-protocol" (pyl []))).filterMap fun pr =>
            _juniper_data (pyGet pr "name")))

/-- Take a nonempty digit run off the front. -/
def takeNat (cs : List Char) : Option (Nat × List Char) :=
  let ds := cs.takeWhile Char.isDigit
  if ds = [] then Option.none else some (digitsToNat ds, cs.dropWhile Char.isDigit)

/-- Embedding of `_juniper_interface_slot`: match
`^[a-zA-Z]+-(\d+)/(\d+)/(\d+)$` against the stripped name, giving
`(fpc, pic, port)`. -/
def _juniper_interface_slot (iface_name : String) : Option (Nat × Nat × Nat) :=
  if iface_name = "" then Option.none
  else
    let cs := pystrip iface_name.data
    let alpha := cs.takeWhile Char.isAlpha
    let rest := cs.dropWhile Char.isAlpha
    if alpha = [] then Option.none
    else
      match rest with
      | '-' :: r1 =>
        match takeNat r1 with
        | some (fpc, '/' :: r2) =>
          match takeNat r2 with
          | some (pic, '/' :: r3) =>
            match takeNat r3 with
            | some (port, []) => some (fpc, pic, port)
            | _ => Option.none
          | _ => Option.none
        | _ => Option.none
      | _ => Option.none

/-- Model of Python `round(x, 2)` over exact rationals (round-half-up;
Python's float round-half-to-even differs only on exact ties, which no
claim exercises). -/
def roundQ2 (q : ℚ) : ℚ := (round (q * 100) : Int) / 100

/-- Embedding of `_juniper_optics_tx_power_dbm`: average
`laser-output-power-dbm` over all lanes, rounded to two decimals. -/
def _juniper_optics_tx_power_dbm (diag_json : PyVal) : Option ℚ :=
  let values : List ℚ :=
    (pyInfosOf diag_json "interface-information").flatMap fun info =>
      (pyEnsureList (pyGetOr info "physical-interface" (pyl []))).flatMap fun ph =>
        (pyEnsureList (pyGetOr ph "optics-diagnostics" (pyl []))).flatMap fun opt =>
          (pyEnsureList (pyGetOr opt "optics-diagnostics-lane-values" (pyl []))).filterMap
            fun lane =>
              match _juniper_data (pyGet lane "laser-output-power-dbm") with
              | some dbm => pyFloatParse dbm.data
              | Option.none => Option.none
  if values = [] then Option.none
  else some (roundQ2 (values.sum / (values.length : ℚ)))

/-- Embedding of `_juniper_chassis_media_type`: the SFP `description`
under `FPC fpc / PIC pic / Xcvr port` in the chassis inventory (the
source returns from the first matching Xcvr, even when its description
is absent). -/
def _juniper_chassis_media_type (chassis_json : PyVal) (fpc pic port : Nat) :
    Option String :=
  (((pyInfosOf chassis_json "chassis-inventory").flatMap fun inv =>
    (pyInfosOf inv "chassis").flatMap fun ch =>
      (pyEnsureList (pyGetOr ch "chassis-module" (pyl []))).flatMap fun module =>
        if _juniper_data (pyGet module "name") ≠ some ("FPC " ++ toString fpc) then []
        else
          (pyEnsureList (pyGetOr module "chassis-sub-module" (pyl []))).flatMap fun sub =>
            if _juniper_data (pyGet sub "name") ≠ some ("PIC " ++ toString pic) then []
            else
              (pyEnsureList (pyGetOr sub "chassis-sub-sub-module" (pyl []))).filterMap
                fun xc =>
                  if _juniper_data (pyGet xc "name") = some ("Xcvr " ++ toString port) then
                    some (_juniper_data (pyGet xc "description"))
                  else Option.none).head?).getD Option.none

/-! ## Canonical uplink rows and device results -/

/-- An entry of the per-device result list: the canonical UplinkRecord
(always-present keys hold a `PyVal`, `PyVal.none` standing for JSON null;
conditionally-present keys are `Option`s, `none` = key absent). -/
structure UplinkRow where
  name : PyVal
  description : PyVal
  mediaType : PyVal
  bandwidth : PyVal
  duplex : PyVal
  physicalAddress : PyVal
  mtu : PyVal
  txPower : PyVal
  forwardingModel : PyVal
  switchportConfiguration : Option PyVal := Option.none
  physicalInterface : Option PyVal := Option.none
  aggregateInterface : Option PyVal := Option.none
  logicalInterface : Option PyVal := Option.none
  isLag : Option PyVal := Option.none
  deriving DecidableEq

/-- Outcome of one per-device pipeline run: the row list, or the
`(None, error)` shape of the source. -/
inductive DeviceResult where
  | ok (rows : List UplinkRow)
  | error (msg : String)
  deriving DecidableEq

/-- Lift an optional string into a `PyVal` (Python `str | None`). -/
def optStrToPy : Option String → PyVal
  | some s => .str s
  | Option.none => .none

/-- Lift an optional integer into a `PyVal`. -/
def optIntToPy : Option Int → PyVal
  | some n => .int n
  | Option.none => .none

/-- Lift an optional rational into a `PyVal`. -/
def optQToPy : Option ℚ → PyVal
  | some q => .float q
  | Option.none => .none

/-! ## Arista pipeline `get_arista_uplink_stats` (src/uplinks_stats.py:663-770)

The session layer is abstracted into response oracles: each field gives,
for the command the pipeline would send, the payload
`read_until_json_and_prompt` would have extracted (`none` = no payload
before the deadline, or no parseable JSON in what arrived). -/

/-- Oracle model of one reachable Arista device (post-authentication).
Per-interface responses are keyed by the CLI interface name interpolated
into the command. -/
structure AristaDevice where
  descResp : Option PyVal
  detailResp : String → Option PyVal
  transResp : String → Option PyVal
  switchportResp : String → Option PyVal

/-- The `if_obj` the per-uplink loop works from:
`((read or {}).get("interfaces") or {}).get(iface_name) or {}` applied to
the detail response (src/uplinks_stats.py:732-734). -/
def aristaIfObj (dev : AristaDevice) (iface_name : String) : PyVal :=
  pyGetOr
    (pyGetOr (pyOr ((dev.detailResp (arista_cli_interface_name iface_name)).getD .none)
      (pyd [])) "interfaces" (pyd []))
    iface_name (pyd [])

/-- Likewise `trans_obj` from the transceiver response
(src/uplinks_stats.py:733-735). -/
def aristaTransObj (dev : AristaDevice) (iface_name : String) : PyVal :=
  pyGetOr
    (pyGetOr (pyOr ((dev.transResp (arista_cli_interface_name iface_name)).getD .none)
      (pyd [])) "interfaces" (pyd []))
    iface_name (pyd [])

/-- Body of the per-uplink loop (src/uplinks_stats.py:723-766): issue the
detail and transceiver queries, drop the interface unless it is link-up,
conditionally fetch the switchport configuration, and build the row. -/
def aristaStep (dev : AristaDevice) (iface_name desc : String) :
    Option UplinkRow :=
  let cli_name := arista_cli_interface_name iface_name
  let if_obj := aristaIfObj dev iface_name
  let trans_obj := aristaTransObj dev iface_name
  if _arista_interface_link_up if_obj = false then Option.none
  else
    let switchport_config : Option PyVal :=
      if pylowerS (pystripS (pyOr (pyGet if_obj "forwardingModel") (.str "")).asStr)
          = "bridged" then
        let sw_data := (dev.switchportResp cli_name).getD .none
        let sw_iface :=
          pyGetOr (pyGetOr (pyOr sw_data (pyd [])) "interfaces" (pyd []))
            iface_name (pyd [])
        if sw_iface.truthy then some sw_iface else Option.none
      else Option.none
    some
      { name := pyOr (pyGet if_obj "name") (.str iface_name),
        mediaType := pyGet trans_obj "mediaType",
        bandwidth := pyGet if_obj "bandwidth",
        duplex := pyGet if_obj "duplex",
        description := pyOr (pyGet if_obj "description") (.str desc),
        physicalAddress := pyGet if_obj "physicalAddress",
        mtu := pyGet if_obj "mtu",
        txPower := pyGet trans_obj "txPower",
        forwardingModel := pyGet if_obj "forwardingModel",
        switchportConfiguration := switchport_config }

/-- Embedding of `get_arista_uplink_stats` (the timing suffixes of the
error strings report wall-clock time and are not modelled). -/
def get_arista_uplink_stats (dev : AristaDevice) : DeviceResult :=
  let desc_data := (dev.descResp).getD .none
  if desc_data.truthy = false then
    .error "не удалось получить show interfaces description | json"
  else
    let uplinks := parse_arista_uplinks desc_data
    if uplinks = [] then .ok []
    else .ok (uplinks.filterMap (fun nd => aristaStep dev nd.1 nd.2))

/-! ## Juniper pipeline `get_juniper_uplink_stats` (src/uplinks_stats.py:952-1151) -/

/-- Oracle model of one reachable Juniper device (post-authentication).
`descXmlRaw` is the raw buffer `read_until_prompt` would return for the
`display xml` fallback and `descXmlDoc` the (library) XML parse of its
`<rpc-reply>` slice; `ifaceResp` serves `show interfaces <name>` for both
aggregate and member names; the remaining fields are keyed likewise by
the interpolated name. -/
structure JuniperDevice where
  descResp : Option PyVal
  descXmlRaw : List Char
  descXmlDoc : Option XElem
  chassisResp : Option PyVal
  lacpResp : String → Option PyVal
  ifaceResp : String → Option PyVal
  opticsResp : String → Option PyVal

/-- Model of the `ae_stats`/`physical_stats` accumulation pattern
(src/uplinks_stats.py:1064-1077 and 1101-1115): fold over the
`interface-information` entries, skipping non-dicts; within each, the
first `physical-interface` whose `name` matches wins, and a later entry
with a match overwrites an earlier one. -/
def juniperFindPhy (data : PyVal) (wanted : String)
    (phyList : PyVal → List PyVal) : Option JuniperPhyStats :=
  (pyInfosOf data "interface-information").foldl
    (fun acc ainfo =>
      match ainfo with
      | .dict _ =>
        match (phyList ainfo).find?
            (fun aph => _juniper_data (pyGet aph "name") = some wanted) with
        | some aph => some (_parse_juniper_phy_iface aph)
        | Option.none => acc
      | _ => acc)
    Option.none

/-- Aggregate (LAG) row for `aggregate_name`
(src/uplinks_stats.py:1059-1095). -/
def juniperAggRow (dev : JuniperDevice) (aggregate_name logical_name : String) :
    UplinkRow :=
  let ae_data := (dev.ifaceResp aggregate_name).getD .none
  let ae_stats : Option JuniperPhyStats :=
    if ae_data.truthy then
      juniperFindPhy ae_data aggregate_name
        (fun ainfo => pyInfosOf ainfo "physical-interface")
    else Option.none
  { name := .str aggregate_name,
    description := .str
      (match ae_stats with
        | some st => pystripS st.description
        | Option.none => ""),
    mediaType := .none,
    bandwidth := match ae_stats with
      | some st => optIntToPy st.bandwidth
      | Option.none => .none,
    duplex := match ae_stats with
      | some st => optStrToPy st.duplex
      | Option.none => .none,
    physicalAddress := match ae_stats with
      | some st => optStrToPy st.physicalAddress
      | Option.none => .none,
    mtu := match ae_stats with
      | some st => optIntToPy st.mtu
      | Option.none => .none,
    txPower := .none,
    forwardingModel := match ae_stats with
      | some st => optStrToPy st.forwardingModel
      | Option.none => .none,
    physicalInterface := some (.str aggregate_name),
    aggregateInterface := some (.str aggregate_name),
    logicalInterface := some (.str logical_name),
    isLag := some (.bool true) }

/-- Member-interface row for `physical_name`
(src/uplinks_stats.py:1097-1146). -/
def juniperMemberRow (dev : JuniperDevice) (chassis_hw : PyVal)
    (logical_name desc physical_name : String)
    (aggregate_name : Option String) : UplinkRow :=
  let ph_data := (dev.ifaceResp physical_name).getD .none
  let physical_stats : Option JuniperPhyStats :=
    if ph_data.truthy then
      juniperFindPhy ph_data physical_name
        (fun pinfo => pyEnsureList (pyGetOr pinfo "physical-interface" (pyl [])))
    else Option.none
  let tx0 : Option ℚ :=
    match physical_stats with
    | some st => st.txPower
    | Option.none => Option.none
  let tx_power : Option ℚ :=
    match tx0 with
    | some q => some q
    | Option.none =>
      let optics_data := (dev.opticsResp physical_name).getD .none
      if optics_data.truthy then _juniper_optics_tx_power_dbm optics_data
      else Option.none
  let media0 : Option String :=
    match physical_stats with
    | some st => st.mediaType
    | Option.none => Option.none
  let media_type : Option String :=
    match media0 with
    | some m => some m
    | Option.none =>
      if chassis_hw.truthy then
        match _juniper_interface_slot physical_name with
        | some slot => _juniper_chassis_media_type chassis_hw slot.1 slot.2.1 slot.2.2
        | Option.none => Option.none
      else Option.none
  { name := .str physical_name,
    description := .str
      (match physical_stats with
        | some st => pystripS (if st.description ≠ "" then st.description else desc)
        | Option.none => desc),
    mediaType := optStrToPy media_type,
    bandwidth := match physical_stats with
      | some st => optIntToPy st.bandwidth
      | Option.none => .none,
    duplex := match physical_stats with
      | some st => optStrToPy st.duplex
      | Option.none => .none,
    physicalAddress := match physical_stats with
      | some st => optStrToPy st.physicalAddress
      | Option.none => .none,
    mtu := match physical_stats with
      | some st => optIntToPy st.mtu
      | Option.none => .none,
    txPower := optQToPy tx_power,
    forwardingModel := match physical_stats with
      | some st => optStrToPy st.forwardingModel
      | Option.none => .none,
    physicalInterface := some (.str physical_name),
    aggregateInterface := some (optStrToPy aggregate_name),
    logicalInterface := some (.str logical_name) }

/-- The main per-uplink loop of `get_juniper_uplink_stats`
(src/uplinks_stats.py:1043-1147), threading the `aggregates_added` set. -/
def juniperLoop (dev : JuniperDevice) (chassis_hw : PyVal) :
    List (String × String) → List String → List UplinkRow
  | [], _ => []
  | nd :: rest, added =>
    let logical_name := nd.1
    let desc := nd.2
    let is_physical : Bool :=
      listSubOf ['.'] logical_name.data = false ∧
        strStartsWith logical_name "ae" = false
    let aggregate_name : Option String :=
      if is_physical then Option.none
      else if listSubOf ['.'] logical_name.data then
        some (String.mk ((pysplit '.' logical_name.data).headD []))
      else Option.none
    let physical_names : List String :=
      if is_physical then [logical_name]
      else
        match aggregate_name with
        | some ag =>
          let lacp_data := (dev.lacpResp ag).getD .none
          if lacp_data.truthy then _juniper_lacp_member_names lacp_data else []
        | Option.none => []
    let aggPart : List UplinkRow × List String :=
      match aggregate_name with
      | some ag =>
        if ag ∈ added then ([], added)
        else ([juniperAggRow dev ag logical_name], ag :: added)
      | Option.none => ([], added)
    aggPart.1 ++
      physical_names.map
        (fun physical_name =>
          juniperMemberRow dev chassis_hw logical_name desc physical_name
            aggregate_name) ++
      juniperLoop dev chassis_hw rest aggPart.2

/-- Embedding of `get_juniper_uplink_stats` (timing suffixes of error
strings not modelled). -/
def get_juniper_uplink_stats (dev : JuniperDevice) : DeviceResult :=
  let desc_data := (dev.descResp).getD .none
  if desc_data.truthy = false then
    .error "не удалось получить show interfaces descriptions | display json"
  else
    let uplinks0 := parse_juniper_uplinks desc_data true
    let uplinks :=
      if uplinks0 = [] then
        dedupByName
          (uplinks0 ++
            (junosRpcReplyRoots dev.descXmlRaw dev.descXmlDoc).flatMap
              (fun root => parse_juniper_uplinks_from_xml root true))
      else uplinks0
    if uplinks = [] then .ok []
    else
      let chassis_hw := (dev.chassisResp).getD .none
      .ok (juniperLoop dev chassis_hw uplinks [])

/-! ## The raw-text XML block extractor (src/uplinks_stats.py:181-213) -/

/-- Result of one inner scan of the extractor: a block of `n` characters
was delimited; the text ran out (the outer loop retries one character
further); or the closing `<` had no following `>` (the outer loop jumps
to the end of the text and finishes). -/
inductive XScanRes where
  | found (n : Nat)
  | exhausted
  | stop
  deriving DecidableEq

/-- Shift a scan result by one consumed character. -/
def XScanRes.addOne : XScanRes → XScanRes
  | .found n => .found (n + 1)
  | r => r

/-- Shift a scan result by `k` consumed characters. -/
def XScanRes.addN (k : Nat) : XScanRes → XScanRes
  | .found n => .found (n + k)
  | r => r

/-- The inner depth-tracking loop of the extractor, started at the `<` of
a start tag with depth 0: `</` decrements (capturing through the next `>`
when depth reaches zero), `<x` with non-space `x` increments, everything
else is skipped. -/
def xscan : List Char → Int → XScanRes
  | [], _ => .exhausted
  | c :: t, d =>
    if c = '<' then
      match t with
      | [] => .exhausted
      | c2 :: _ =>
        if c2 = '/' then
          if d - 1 = 0 then
            match (c :: t).findIdx? (fun x => x = '>') with
            | some k => .found (k + 1)
            | Option.none => .stop
          else (xscan t (d - 1)).addOne
        else if c2.isWhitespace then (xscan t d).addOne
        else (xscan t (d + 1)).addOne
    else (xscan t d).addOne

/-- First index at which `pat` occurs in the text (Python `text.find`). -/
def findSubIdx (pat : List Char) : List Char → Option Nat
  | [] => if pat.isPrefixOf [] then some 0 else Option.none
  | c :: t =>
    if pat.isPrefixOf (c :: t) then some 0
    else (findSubIdx pat t).map (fun n => n + 1)

/-- The outer loop of the extractor, in fuel-indexed form (the fuel is a
bound on the number of iterations; each iteration strictly advances). -/
def xblocksGo (fuel : Nat) (cs : List Char) : List (List Char) :=
  match fuel with
  | 0 => []
  | fuel + 1 =>
    match findSubIdx "<interface-information".data cs with
    | Option.none => []
    | some idx =>
      let rest := cs.drop idx
      match xscan rest 0 with
      | .found n => rest.take n :: xblocksGo fuel (rest.drop n)
      | .exhausted => xblocksGo fuel (cs.drop (idx + 1))
      | .stop => []

/-- Embedding of `_extract_all_xml_interface_information_blocks`. -/
def _extract_all_xml_interface_information_blocks (cs : List Char) :
    List (List Char) :=
  xblocksGo (cs.length + 1) cs

/-- Embedding of `_extract_xml_interface_information` (first block). -/
def _extract_xml_interface_information (cs : List Char) : Option (List Char) :=
  (_extract_all_xml_interface_information_blocks cs).head?

/-! ### Spec-side generator of well-formed XML text (for C8)

The claim quantifies over texts containing N disjoint balanced
`<interface-information>` spans with properly nested child tags; such
spans are exactly the renderings of the trees below. -/

mutual

/-- A written XML fragment: an element with properly nested children, or
a raw text chunk. -/
inductive XmlTree where
  | node (tag : List Char) (children : XmlKids)
  | chunk (s : List Char)
  deriving DecidableEq

/-- A sequence of sibling fragments. -/
inductive XmlKids where
  | nil
  | cons (t : XmlTree) (f : XmlKids)
  deriving DecidableEq

end

mutual

/-- Serialise a fragment: `<tag>children</tag>`, chunks verbatim. -/
def XmlTree.render : XmlTree → List Char
  | .node tag kids =>
    '<' :: (tag ++ ('>' :: (XmlKids.render kids ++ ('<' :: '/' :: (tag ++ ['>'])))))
  | .chunk s => s

/-- Serialise a sibling sequence. -/
def XmlKids.render : XmlKids → List Char
  | .nil => []
  | .cons t f => XmlTree.render t ++ XmlKids.render f

end

/-- A usable tag: nonempty, not starting with `/` or whitespace, free of
angle brackets. -/
def tagOk (tag : List Char) : Bool :=
  match tag with
  | [] => false
  | c :: _ =>
    (c ≠ '/' ∧ ¬ c.isWhitespace) ∧ tag.all (fun x => x ≠ '<' ∧ x ≠ '>')

mutual

/-- Well-formedness of a fragment: every tag usable, every chunk free of
`<`. -/
def XmlTree.wf : XmlTree → Bool
  | .node tag kids => tagOk tag && XmlKids.wf kids
  | .chunk s => s.all (fun c => c ≠ '<')

/-- Well-formedness of a sibling sequence. -/
def XmlKids.wf : XmlKids → Bool
  | .nil => true
  | .cons t f => XmlTree.wf t && XmlKids.wf f

end

/-- Interleave garbage and rendered blocks:
`g0 ++ render b1 ++ g1 ++ ... ++ render bN ++ gN`. -/
def xmlAssemble (g0 : List Char) (parts : List (XmlTree × List Char)) :
    List Char :=
  g0 ++ (parts.map (fun p => XmlTree.render p.1 ++ p.2)).flatten

/-! ## Fleet scheduler (src/uplinks_stats.py:1498-1524)

One worker runs per device; `as_completed` consumes results in an
arbitrary completion order; a worker's return value — the row list, an
error dict, or `None` for a skipped (unsupported-platform) device — is
stored under the device name, and an exception escaping a worker is
caught and stored as that device's error entry. -/

/-- What one device's worker produces (`process_one_device_stats` return
value, or an escaped exception). -/
inductive WorkerReturn where
  | ok (rows : List UplinkRow)
  | err (msg : String)
  | skipped
  | raised (msg : String)
  deriving DecidableEq

/-- Shape of one entry of the fleet result map: a record list, an error
descriptor, or the skipped marker (`None`). -/
inductive FleetEntry where
  | records (rows : List UplinkRow)
  | failure (msg : String)
  | skippedDevice
  deriving DecidableEq

/-- Entry stored for a worker outcome: `results[name] = data` for normal
returns, `results[device.name] = {"error": str(e)}` for an exception. -/
def fleetEntryOf : WorkerReturn → FleetEntry
  | .ok rows => .records rows
  | .err msg => .failure msg
  | .skipped => .skippedDevice
  | .raised msg => .failure msg

/-- Python dict assignment `m[k] = v` on an insertion-ordered
association list. -/
def dictAssign (m : List (String × FleetEntry)) (k : String) (v : FleetEntry) :
    List (String × FleetEntry) :=
  if (m.lookup k).isSome then m.map (fun p => if p.1 = k then (k, v) else p)
  else m ++ [(k, v)]

/-- The collection loop of `main`: fold the completion order into the
result dict, one entry per finished worker. -/
def fleetCollect (order : List String) (outcome : String → WorkerReturn) :
    List (String × FleetEntry) :=
  order.foldl (fun m d => dictAssign m d (fleetEntryOf (outcome d))) []

/-! ## Concrete payload builders (fixtures used by witnesses below) -/

/-- Build an `XForest` from a list. -/
def XForest.ofList : List XElem → XForest
  | [] => .nil
  | e :: f => .cons e (XForest.ofList f)

/-- A `show interfaces descriptions` JSON payload holding exactly one
physical interface. -/
def juniperSinglePhy (iface : PyVal) : PyVal :=
  pyd [("interface-information", pyl [pyd [
    ("physical-interface", pyl [iface]),
    ("logical-interface", pyl [])]])]

/-- One Junos JSON interface element with the given name, description and
(optionally) oper-status. -/
def juniperIfaceJson (name desc : String) (oper : Option String) : PyVal :=
  pyd ([("name", pyl [pyd [("data", .str name)]]),
    ("description", pyl [pyd [("data", .str desc)]])] ++
    (match oper with
      | some o => [("oper-status", pyl [pyd [("data", .str o)]])]
      | Option.none => []))

/-- One Junos XML interface element with the given name, description and
(optionally) oper-status. -/
def juniperIfaceXml (name desc : String) (oper : Option String) : XElem :=
  .mk "physical-interface" Option.none (XForest.ofList
    ([XElem.mk "name" (some name) .nil,
      XElem.mk "description" (some desc) .nil] ++
      (match oper with
        | some o => [XElem.mk "oper-status" (some o) .nil]
        | Option.none => [])))

/-- An Arista device whose bootstrap listing carries exactly one
interface, with configurable per-step responses (the same response is
served whatever interface the command names; only one is ever asked). -/
def aristaSingleDev (name desc : String) (det tr sw : Option PyVal) :
    AristaDevice where
  descResp := some (pyd [("interfaceDescriptions",
    pyd [(name, pyd [("description", .str desc)])])])
  detailResp := fun _ => det
  transResp := fun _ => tr
  switchportResp := fun _ => sw

/-- A concrete Juniper device for C2: one up, uplink-marked LAG logical
interface `ae5.0`; LACP reports one member `et-0/0/1` whose own detail
shows oper-status `down` and a description without the uplink marker;
the aggregate's own detail query yields nothing. -/
def jDevC2 : JuniperDevice where
  descResp := some (pyd [("interface-information", pyl [pyd [
    ("physical-interface", pyl []),
    ("logical-interface", pyl [pyd [
      ("name", pyl [pyd [("data", .str "ae5.0")]]),
      ("description", pyl [pyd [("data", .str "Uplink: transit")]]),
      ("oper-status", pyl [pyd [("data", .str "up")]])]])]])])
  descXmlRaw := []
  descXmlDoc := Option.none
  chassisResp := Option.none
  lacpResp := fun ag =>
    if ag = "ae5" then
      some (pyd [("lacp-interface-information-list", pyl [pyd [
        ("lacp-interface-information", pyl [pyd [
          ("lag-lacp-state", pyl [pyd [("name", pyl [pyd [("data", .str "et-0/0/1")]])]]),
          ("lag-lacp-protocol", pyl [])]])]])])
    else Option.none
  ifaceResp := fun n =>
    if n = "et-0/0/1" then
      some (pyd [("interface-information", pyl [pyd [
        ("physical-interface", pyl [pyd [
          ("name", pyl [pyd [("data", .str "et-0/0/1")]]),
          ("description", pyl [pyd [("data", .str "core-link")]]),
          ("oper-status", pyl [pyd [("data", .str "down")]])]])]])])
    else Option.none
  opticsResp := fun _ => Option.none

/-- The member's `physical-interface` JSON element inside `jDevC2`'s
detail response for `et-0/0/1` (used to state what the device reported). -/
def jDevC2MemberDetail : PyVal :=
  pyd [("name", pyl [pyd [("data", .str "et-0/0/1")]]),
    ("description", pyl [pyd [("data", .str "core-link")]]),
    ("oper-status", pyl [pyd [("data", .str "down")]])]

/-- A concrete Juniper device for C7: the bootstrap listing holds one
uplink-marked interface that is oper-status `down`; everything else is
empty. -/
def jDevC7 : JuniperDevice where
  descResp := some (juniperSinglePhy
    (juniperIfaceJson "xe-0/0/0" "Uplink: a" (some "down")))
  descXmlRaw := []
  descXmlDoc := Option.none
  chassisResp := Option.none
  lacpResp := fun _ => Option.none
  ifaceResp := fun _ => Option.none
  opticsResp := fun _ => Option.none

/-! ## Helper lemmas on the string model -/

theorem listSubOf_singleton (a : Char) (l : List Char) :
    listSubOf [a] l = true ↔ a ∈ l := by
  induction l with
  | nil => simp [listSubOf]
  | cons c t ih =>
    simp [listSubOf, List.isPrefixOf, ih, List.mem_cons]

theorem mem_of_mem_dropWhile {p : Char → Bool} {l : List Char} {c : Char}
    (h : c ∈ l.dropWhile p) : c ∈ l :=
  (List.dropWhile_sublist p).mem h

theorem mem_of_mem_pystrip {l : List Char} {c : Char} (h : c ∈ pystrip l) :
    c ∈ l := by
  unfold pystrip at h
  rw [List.mem_reverse] at h
  have h1 := mem_of_mem_dropWhile h
  rw [List.mem_reverse] at h1
  exact mem_of_mem_dropWhile h1

theorem forall_mem_dropWhile_iff {p : Char → Bool} {l : List Char} :
    (∀ c ∈ l.dropWhile p, p c) ↔ ∀ c ∈ l, p c := by
  constructor
  · intro h c hc
    rcases List.mem_append.mp
        ((List.takeWhile_append_dropWhile (p := p) (l := l)) ▸ hc) with h1 | h1
    · exact List.mem_takeWhile_imp h1
    · exact h c h1
  · intro h c hc
    exact h c (mem_of_mem_dropWhile hc)

theorem pystrip_eq_nil_iff {l : List Char} :
    pystrip l = [] ↔ ∀ c ∈ l, pyws c := by
  unfold pystrip
  rw [List.reverse_eq_nil_iff, List.dropWhile_eq_nil_iff]
  constructor
  · intro h
    rw [← forall_mem_dropWhile_iff (p := pyws) (l := l)]
    intro c hc
    exact h c (by rwa [List.mem_reverse])
  · intro h c hc
    rw [List.mem_reverse] at hc
    exact forall_mem_dropWhile_iff.mpr h c hc

theorem pysplit_ne_nil (sep : Char) (cs : List Char) : pysplit sep cs ≠ [] := by
  induction cs with
  | nil => simp [pysplit]
  | cons c t ih =>
    simp only [pysplit]
    split
    · simp
    · match h : pysplit sep t with
      | [] => exact absurd h ih
      | hd :: tl => simp

theorem mem_of_mem_pysplit {sep : Char} {cs part : List Char} {c : Char}
    (hp : part ∈ pysplit sep cs) (hc : c ∈ part) : c ∈ cs := by
  induction cs generalizing part with
  | nil =>
    simp [pysplit] at hp
    subst hp
    simp at hc
  | cons c0 t ih =>
    simp only [pysplit] at hp
    split at hp
    · rcases List.mem_cons.mp hp with h | h
      · subst h; simp at hc
      · exact List.mem_cons_of_mem _ (ih h hc)
    · revert hp
      match h : pysplit sep t with
      | [] => exact absurd h (pysplit_ne_nil sep t)
      | hd :: tl =>
        intro hp
        rcases List.mem_cons.mp hp with h1 | h1
        · subst h1
          rcases List.mem_cons.mp hc with h2 | h2
          · exact h2 ▸ List.mem_cons_self _ _
          · exact List.mem_cons_of_mem _ (ih (h ▸ List.mem_cons_self hd tl) h2)
        · exact List.mem_cons_of_mem _ (ih (h ▸ List.mem_cons_of_mem hd h1) hc)

theorem getLastD_mem {l : List (List Char)} (h : l ≠ []) :
    l.getLastD [] ∈ l := by
  match l with
  | [] => exact absurd rfl h
  | a :: as =>
    rw [List.getLastD_eq_getLast?,
      List.getLast?_eq_getLast (a :: as) (by simp), Option.getD_some]
    exact List.getLast_mem (by simp)

theorem mem_of_mem_lastLineRaw {cs : List Char} {c : Char}
    (h : c ∈ lastLineRaw cs) : c ∈ cs := by
  unfold lastLineRaw at h
  split at h
  · exact mem_of_mem_pysplit (getLastD_mem (pysplit_ne_nil '\n' cs)) h
  · exact h

/-- Claim C6 helper: a nonempty stripped last line forces a nonempty
stripped buffer. -/
theorem pystrip_ne_nil_of_lastLine {cs : List Char}
    (h : pystrip (lastLineRaw cs) ≠ []) : pystrip cs ≠ [] ∧ cs ≠ [] := by
  have h1 : ¬ ∀ c ∈ lastLineRaw cs, pyws c := fun hall =>
    h (pystrip_eq_nil_iff.mpr hall)
  push_neg at h1
  obtain ⟨c, hc, hnw⟩ := h1
  have hmem : c ∈ cs := mem_of_mem_lastLineRaw hc
  refine ⟨fun hnil => ?_, fun hnil => by simp [hnil] at hmem⟩
  exact hnw (pystrip_eq_nil_iff.mp hnil c hmem)

/-- Claim C6 (theorem): `_looks_like_cli_prompt` returns true exactly
when the (whitespace-stripped) last line of the text ends in `>` or `#`
and carries a `user@host`-style marker (`@`); in particular the
spec's examples hold, as the separate witness shows. -/
theorem looks_like_cli_prompt_iff_spec (cs : List Char) :
    _looks_like_cli_prompt cs = true ↔ PromptSpec cs := by
  unfold _looks_like_cli_prompt PromptSpec
  constructor
  · intro h
    by_cases h1 : cs = [] ∨ pystrip cs = []
    · rw [if_pos h1] at h; exact absurd h (by simp)
    · rw [if_neg h1] at h
      by_cases h2 : pystrip (lastLineRaw cs) = []
      · rw [if_pos h2] at h; exact absurd h (by simp)
      · rw [if_neg h2] at h
        by_cases h3 : ¬ (pyEndsWithChar (pystrip (lastLineRaw cs)) '>' ∨
            pyEndsWithChar (pystrip (lastLineRaw cs)) '#')
        · rw [if_pos h3] at h; exact absurd h (by simp)
        · rw [if_neg h3] at h
          rw [not_not] at h3
          exact ⟨h3, (listSubOf_singleton _ _).mp h⟩
  · rintro ⟨hend, hat⟩
    have hne : pystrip (lastLineRaw cs) ≠ [] := by
      intro hnil; rw [hnil] at hat; simp at hat
    obtain ⟨hstrip, hcs⟩ := pystrip_ne_nil_of_lastLine hne
    rw [if_neg (by simp [hstrip, hcs]), if_neg hne,
      if_neg (not_not_intro hend)]
    exact (listSubOf_singleton _ _).mpr hat

/-- Witness for C6 at the spec's own examples: `"... \n> not a prompt"`
is rejected and `"...\nadmin@switch1> "` accepted, via the theorem. -/
theorem looks_like_cli_prompt_iff_spec_witness :
    _looks_like_cli_prompt "... \n> not a prompt".data = false ∧
      _looks_like_cli_prompt "...\nadmin@switch1> ".data = true := by
  refine ⟨Bool.eq_false_iff.mpr (fun h => ?_),
    (looks_like_cli_prompt_iff_spec "...\nadmin@switch1> ".data).mpr
      (by unfold PromptSpec; decide)⟩
  exact absurd ((looks_like_cli_prompt_iff_spec "... \n> not a prompt".data).mp h)
    (by unfold PromptSpec; decide)

/-! ## Brace-scan lemmas (for C4 and C5) -/

theorem sumDelta_nil : sumDelta [] = 0 := rfl

theorem sumDelta_cons (c : Char) (t : List Char) :
    sumDelta (c :: t) = braceDelta c + sumDelta t := by
  simp [sumDelta]

theorem braceDelta_cases (c : Char) :
    braceDelta c = 1 ∨ braceDelta c = -1 ∨ braceDelta c = 0 := by
  unfold braceDelta
  split
  · exact Or.inl rfl
  · split
    · exact Or.inr (Or.inl rfl)
    · exact Or.inr (Or.inr rfl)

theorem braceDelta_eq_neg_one {c : Char} (h : braceDelta c = -1) : c = '}' := by
  unfold braceDelta at h
  split at h
  · exact absurd h (by decide)
  · split at h
    · assumption
    · exact absurd h (by decide)

theorem sumDelta_take_succ (cs : List Char) (m : Nat) (hm : m < cs.length) :
    sumDelta (cs.take (m + 1)) =
      sumDelta (cs.take m) + braceDelta (cs.get ⟨m, hm⟩) := by
  unfold sumDelta
  rw [List.map_take, List.map_take,
    List.sum_take_succ (L := cs.map braceDelta) (i := m) (p := by simpa using hm)]
  simp

/-- Scanning never returns a slice when the running depth never hits
zero. -/
theorem scanLen_eq_none (cs : List Char) : ∀ (d : Int),
    (∀ n, n ≤ cs.length → 1 ≤ n → d + sumDelta (cs.take n) ≠ 0) →
    scanLen cs d = Option.none := by
  induction cs with
  | nil => intro d _; rfl
  | cons c t ih =>
    intro d h
    have h1 : d + braceDelta c ≠ 0 := by
      have := h 1 (by simp) (by omega)
      simpa [sumDelta] using this
    simp only [scanLen]
    rw [if_neg (fun hc => h1 hc.2)]
    rw [ih (d + braceDelta c) (fun n hn h1n => ?_)]
    · rfl
    · have := h (n + 1) (by simpa using hn) (by omega)
      rw [List.take_succ_cons, sumDelta_cons] at this
      omega

/-- Scanning returns exactly the first prefix on which the running depth
returns to zero, provided depth stays positive strictly before it and the
start is sound (`d ≥ 1`, or depth 0 at an opening brace). -/
theorem scanLen_eq_some (cs : List Char) : ∀ (d : Int) (n : Nat),
    1 ≤ n → n ≤ cs.length → d + sumDelta (cs.take n) = 0 →
    (∀ m, m < n → 1 ≤ m → 1 ≤ d + sumDelta (cs.take m)) →
    (1 ≤ d ∨ (d = 0 ∧ cs.head? = some '{')) →
    scanLen cs d = some n := by
  induction cs with
  | nil =>
    intro d n h1 hlen _ _ _
    simp at hlen
    omega
  | cons c t ih =>
    intro d n h1 hlen hz hpos hd
    match n, h1 with
    | 1, _ =>
      rw [List.take_succ_cons, List.take_zero] at hz
      rw [sumDelta_cons, sumDelta_nil] at hz
      have hc : c = '}' := by
        rcases hd with hd | ⟨hd0, hdh⟩
        · rcases braceDelta_cases c with hh | hh | hh
          · omega
          · exact braceDelta_eq_neg_one hh
          · omega
        · have : c = '{' := by simpa using hdh
          rw [this] at hz
          simp [braceDelta] at hz
          omega
      simp only [scanLen]
      rw [if_pos ⟨hc, by omega⟩]
    | (m + 2), _ =>
      have hguard : ¬ (c = '}' ∧ d + braceDelta c = 0) := by
        rintro ⟨-, habs⟩
        have := hpos 1 (by omega) (by omega)
        rw [List.take_succ_cons, List.take_zero, sumDelta_cons, sumDelta_nil] at this
        omega
      have hd' : 1 ≤ d + braceDelta c := by
        have := hpos 1 (by omega) (by omega)
        rw [List.take_succ_cons, List.take_zero, sumDelta_cons, sumDelta_nil] at this
        omega
      simp only [scanLen]
      rw [if_neg hguard]
      rw [ih (d + braceDelta c) (m + 1) (by omega) (by simpa using hlen)
        (by rw [List.take_succ_cons, sumDelta_cons] at hz; omega)
        (fun k hk h1k => ?_) (Or.inl hd')]
      · rfl
      · have := hpos (k + 1) (by omega) (by omega)
        rw [List.take_succ_cons, sumDelta_cons] at this
        omega

theorem dropWhile_append_of_forall {p : Char → Bool} {g r : List Char}
    (h : ∀ c ∈ g, p c) : (g ++ r).dropWhile p = r.dropWhile p := by
  induction g with
  | nil => rfl
  | cons c t ih =>
    rw [List.cons_append, List.dropWhile_cons, if_pos (h c (by simp))]
    exact ih (fun x hx => h x (by simp [hx]))

theorem dropWhile_head_false {p : Char → Bool} {cs : List Char} {c : Char}
    {t : List Char} (h : cs.dropWhile p = c :: t) : p c = false := by
  induction cs with
  | nil => simp at h
  | cons a as ih =>
    rw [List.dropWhile_cons] at h
    split at h
    · exact ih h
    · cases h
      simp_all

/-- Claim C4 (amended theorem): `extract_json` is location-invariant when
the left garbage contains no `{` at all (rather than merely no unbalanced
brace, which the counterexample refutes) and the embedded object is
brace-strict: for `text = garbage1 ++ jsonObj ++ garbage2`, the result
equals parsing `jsonObj` directly; the right garbage is arbitrary. -/
theorem extract_json_location_invariant
    (g1 j g2 : List Char) (v : PyVal)
    (hg : '{' ∉ g1)
    (hbal : StrictBalanced j)
    (hparse : json_loads j = some v) :
    extract_json (g1 ++ j ++ g2) = some v := by
  obtain ⟨hhead, hsum, hstrict⟩ := hbal
  have hjne : j ≠ [] := by cases j <;> simp_all
  have hscan : scanLen (j ++ g2) 0 = some j.length := by
    apply scanLen_eq_some
    · have := List.length_pos.mpr hjne
      omega
    · simp
    · rw [List.take_left]
      omega
    · intro m hm h1m
      rw [List.take_append_eq_append_take]
      have hz : m - j.length = 0 := by omega
      rw [hz, List.take_zero, List.append_nil]
      have := hstrict m hm h1m
      omega
    · right
      exact ⟨rfl, by rw [List.head?_append_of_ne_nil _ hjne]; exact hhead⟩
  have hdrop : (g1 ++ j ++ g2).dropWhile notLBrace = j ++ g2 := by
    rw [List.append_assoc]
    rw [dropWhile_append_of_forall (fun c hc => by
      simp only [notLBrace, decide_eq_true_eq]
      intro heq
      exact hg (heq ▸ hc))]
    obtain ⟨j', rfl⟩ : ∃ j', j = '{' :: j' := by
      cases j with
      | nil => simp at hhead
      | cons a t => exact ⟨t, by simp_all⟩
    rw [List.cons_append, List.dropWhile_cons, if_neg (by simp [notLBrace]),
      ← List.cons_append]
  unfold extract_json
  rw [hdrop, hscan]
  show json_loads (List.take j.length (j ++ g2)) = some v
  rw [List.take_left]
  exact hparse

/-- Witness for C4's amended theorem at the spec's own example
`user> {"a": {"b": 1}} host#`. -/
theorem extract_json_location_invariant_witness :
    extract_json ("user> ".data ++ "\x7b\"a\": \x7b\"b\": 1\x7d\x7d".data ++
      " host#".data) = some (pyd [("a", pyd [("b", .int 1)])]) :=
  extract_json_location_invariant "user> ".data
    "\x7b\"a\": \x7b\"b\": 1\x7d\x7d".data " host#".data
    (pyd [("a", pyd [("b", .int 1)])])
    (by decide)
    (by refine ⟨rfl, by decide, ?_⟩
        decide)
    (by decide)

/-- Claim C4 (counterexample): with garbage that contains only *balanced*
braces — allowed by the claim's hypothesis — location invariance fails:
for `garbage1 = "{} "`, `jsonObj = {"a": 1}`, `garbage2 = ""`,
`extract_json` parses the garbage's `{}` and returns an empty dict
instead of the embedded object. -/
theorem extract_json_not_location_invariant :
    BalancedGarbage "\x7b\x7d ".data ∧ BalancedGarbage ([] : List Char) ∧
      json_loads "\x7b\"a\": 1\x7d".data = some (pyd [("a", .int 1)]) ∧
      extract_json ("\x7b\x7d ".data ++ "\x7b\"a\": 1\x7d".data ++ []) =
        some (pyd []) ∧
      some (pyd []) ≠ some (pyd [("a", .int 1)]) := by
  refine ⟨⟨by decide, by decide⟩, ⟨by decide, by decide⟩, by decide, by decide,
    by decide⟩

/-- The depth of the scanned suffix stays at least 1 on every interior
prefix on which it is nonzero, provided the suffix opens with `{`. -/
theorem sumDelta_take_pos_of_ne_zero (r : List Char)
    (hh : r.head? = some '{') (n : Nat)
    (hnz : ∀ m, m < n → 1 ≤ m → sumDelta (r.take m) ≠ 0) :
    ∀ m, m < n → 1 ≤ m → m ≤ r.length → 1 ≤ sumDelta (r.take m) := by
  intro m
  induction m with
  | zero => omega
  | succ k ih =>
    intro hmn h1 hlen
    by_cases hk : k = 0
    · subst hk
      obtain ⟨r', rfl⟩ : ∃ r', r = '{' :: r' := by
        cases r with
        | nil => simp at hh
        | cons a t => exact ⟨t, by simp_all⟩
      rw [List.take_succ_cons, List.take_zero, sumDelta_cons, sumDelta_nil]
      simp [braceDelta]
    · have hprev : 1 ≤ sumDelta (r.take k) :=
        ih (by omega) (by omega) (by omega)
      have hstep := sumDelta_take_succ r k (by omega)
      have hne := hnz (k + 1) hmn (by omega)
      rcases braceDelta_cases (r.get ⟨k, by omega⟩) with hd | hd | hd <;>
        rw [hd] at hstep <;> omega

/-- Claim C5 (theorem): `extract_json` returns `None` both (i) when brace
depth never returns to zero after the first `{` and (ii) when the first
balanced brace slice fails to parse as JSON. -/
theorem extract_json_none_cases :
    (∀ cs : List Char,
      cs.dropWhile notLBrace ≠ [] →
      (∀ n, n ≤ (cs.dropWhile notLBrace).length → 1 ≤ n →
        sumDelta ((cs.dropWhile notLBrace).take n) ≠ 0) →
      extract_json cs = Option.none) ∧
    (∀ (cs : List Char) (n : Nat),
      n ≤ (cs.dropWhile notLBrace).length → 1 ≤ n →
      sumDelta ((cs.dropWhile notLBrace).take n) = 0 →
      (∀ m, m < n → 1 ≤ m → sumDelta ((cs.dropWhile notLBrace).take m) ≠ 0) →
      json_loads ((cs.dropWhile notLBrace).take n) = Option.none →
      extract_json cs = Option.none) := by
  constructor
  · intro cs _ hnz
    unfold extract_json
    rw [scanLen_eq_none (cs.dropWhile notLBrace) 0
      (fun n hn h1n => by
        have := hnz n hn h1n
        omega)]
  · intro cs n hlen h1 hz hfirst hparse
    have hh : (cs.dropWhile notLBrace).head? = some '{' := by
      match hr : cs.dropWhile notLBrace with
      | [] => rw [hr] at hlen; simp at hlen; omega
      | c :: t =>
        have := dropWhile_head_false hr
        simp only [notLBrace, decide_eq_true_eq] at this
        have : c = '{' := by
          by_contra hne
          simp [hne] at this
        simp [this]
    have hscan : scanLen (cs.dropWhile notLBrace) 0 = some n := by
      apply scanLen_eq_some _ _ _ h1 hlen (by omega)
      · intro m hm h1m
        have := sumDelta_take_pos_of_ne_zero (cs.dropWhile notLBrace) hh n
          hfirst m hm h1m (by omega)
        omega
      · exact Or.inr ⟨rfl, hh⟩
    unfold extract_json
    rw [hscan]
    exact hparse

/-- Witness for C5 at the spec's own unterminated example `{"a": 1` (part
i) and at `{]}` whose first balanced slice is not JSON (part ii). -/
theorem extract_json_none_cases_witness :
    extract_json "\x7b\"a\": 1".data = Option.none ∧
      extract_json "x \x7b]\x7d y".data = Option.none := by
  constructor
  · exact extract_json_none_cases.1 "\x7b\"a\": 1".data (by decide)
      (by decide)
  · exact extract_json_none_cases.2 "x \x7b]\x7d y".data 3 (by decide)
      (by decide) (by decide) (by decide) (by decide)

/-! ## Unit-0 filtering of the Juniper parsers (C9, C10) -/

theorem juniperKeep_unit0 {iface : PyVal} {b : Bool} {p : String × String}
    (h : juniperKeep iface b = some p) :
    _juniper_uplink_is_unit0 p.1 = true := by
  simp only [juniperKeep] at h
  split at h
  · split at h
    · simp at h
    · split at h
      · simp at h
      · next hu =>
        cases h
        simpa using hu
  · simp at h

theorem parse_juniper_uplinks_mem_unit0 {j : PyVal} {b : Bool}
    {p : String × String} (hp : p ∈ parse_juniper_uplinks j b) :
    _juniper_uplink_is_unit0 p.1 = true := by
  unfold parse_juniper_uplinks at hp
  rw [List.mem_flatMap] at hp
  obtain ⟨info, -, hmem⟩ := hp
  rw [List.mem_append] at hmem
  rcases hmem with hm | hm <;>
  · rw [List.mem_filterMap] at hm
    obtain ⟨x, -, hx⟩ := hm
    exact juniperKeep_unit0 hx

theorem parse_juniper_uplinks_from_xml_mem_unit0 {root : XElem} {b : Bool}
    {p : String × String} (hp : p ∈ parse_juniper_uplinks_from_xml root b) :
    _juniper_uplink_is_unit0 p.1 = true := by
  unfold parse_juniper_uplinks_from_xml at hp
  rw [List.mem_filterMap] at hp
  obtain ⟨e, -, he⟩ := hp
  simp only at he
  split at he
  · simp at he
  · split at he
    · simp at he
    · split at he
      · simp at he
      · split at he
        · simp at he
        · next hu =>
          cases he
          simpa using hu

/-- Join the parts of a split back with the separator. -/
def joinSep (sep : Char) : List (List Char) → List Char
  | [] => []
  | [p] => p
  | p :: q :: ps => p ++ sep :: joinSep sep (q :: ps)

theorem joinSep_pysplit (sep : Char) (cs : List Char) :
    joinSep sep (pysplit sep cs) = cs := by
  induction cs with
  | nil => rfl
  | cons c t ih =>
    simp only [pysplit]
    split
    · next hsep =>
      match h : pysplit sep t with
      | [] => exact absurd h (pysplit_ne_nil sep t)
      | hd :: tl =>
        have ih' : joinSep sep (hd :: tl) = t := h ▸ ih
        simp only [joinSep, List.nil_append]
        rw [ih', hsep]
    · match h : pysplit sep t with
      | [] => exact absurd h (pysplit_ne_nil sep t)
      | hd :: tl =>
        have ih' : joinSep sep (hd :: tl) = t := h ▸ ih
        match tl with
        | [] =>
          simp only [joinSep] at ih' ⊢
          rw [ih']
        | t2 :: ts =>
          simp only [joinSep] at ih' ⊢
          rw [List.cons_append, ih']

theorem pysplit_length_ge_two {sep : Char} {cs : List Char}
    (h : sep ∈ cs) : 2 ≤ (pysplit sep cs).length := by
  induction cs with
  | nil => simp at h
  | cons c t ih =>
    simp only [pysplit]
    split
    · have h1 := List.length_pos.mpr (pysplit_ne_nil sep t)
      simp only [List.length_cons]
      omega
    · next hne =>
      have hst : sep ∈ t := by
        rcases List.mem_cons.mp h with h1 | h1
        · exact absurd h1.symm hne
        · exact h1
      have := ih hst
      match h2 : pysplit sep t with
      | [] => exact absurd h2 (pysplit_ne_nil sep t)
      | hd :: tl =>
        rw [h2] at this
        simp only [List.length_cons] at this ⊢
        omega

theorem joinSep_append_last (sep : Char) (ps : List (List Char))
    (p : List Char) (h : ps ≠ []) :
    joinSep sep (ps ++ [p]) = joinSep sep ps ++ sep :: p := by
  induction ps with
  | nil => exact absurd rfl h
  | cons q qs ih =>
    match qs with
    | [] => simp [joinSep]
    | r :: rs =>
      have ih' := ih (by simp)
      simp only [List.cons_append] at ih' ⊢
      simp only [joinSep]
      rw [ih']
      simp

/-- The structural content of `_juniper_uplink_is_unit0`: an accepted
name has no dot at all or ends in `.0`. -/
theorem unit0_shape {name : String}
    (h : _juniper_uplink_is_unit0 name = true) :
    '.' ∉ name.data ∨ ∃ pre, name.data = pre ++ ['.', '0'] := by
  unfold _juniper_uplink_is_unit0 at h
  split at h
  · simp at h
  · split at h
    · next hnd =>
      left
      intro hmem
      rw [← listSubOf_singleton] at hmem
      simp [hmem] at hnd
    · next hnd =>
      right
      have hdot : '.' ∈ name.data := by
        rw [← listSubOf_singleton]
        revert hnd
        cases listSubOf ['.'] name.data <;> simp
      have hlen := pysplit_length_ge_two hdot
      have hlast : (pysplit '.' name.data).getLastD [] = ['0'] := by
        simpa using h
      obtain ⟨ps, p, hsplit⟩ : ∃ ps p, pysplit '.' name.data = ps ++ [p] := by
        have hne := pysplit_ne_nil '.' name.data
        exact ⟨(pysplit '.' name.data).dropLast, (pysplit '.' name.data).getLast hne,
          (List.dropLast_append_getLast hne).symm⟩
      have hps : ps ≠ [] := by
        intro hnil
        rw [hnil] at hsplit
        rw [hsplit] at hlen
        simp at hlen
      have hp : p = ['0'] := by
        rw [hsplit, List.getLastD_eq_getLast?, List.getLast?_concat] at hlast
        simpa using hlast
      refine ⟨joinSep '.' ps, ?_⟩
      have := joinSep_pysplit '.' name.data
      rw [hsplit, joinSep_append_last '.' ps p hps, hp] at this
      exact this.symm

/-- Claim C9 (theorem): every pair returned by `parse_juniper_uplinks` or
`parse_juniper_uplinks_from_xml` names a physical interface (no `.`) or a
unit-0 logical interface (name ending in `.0`); other logical units never
appear. -/
theorem parse_juniper_unit0_only :
    (∀ (j : PyVal) (b : Bool) (p : String × String),
      p ∈ parse_juniper_uplinks j b →
      '.' ∉ p.1.data ∨ ∃ pre, p.1.data = pre ++ ['.', '0']) ∧
    (∀ (root : XElem) (b : Bool) (p : String × String),
      p ∈ parse_juniper_uplinks_from_xml root b →
      '.' ∉ p.1.data ∨ ∃ pre, p.1.data = pre ++ ['.', '0']) :=
  ⟨fun _ _ _ hp => unit0_shape (parse_juniper_uplinks_mem_unit0 hp),
    fun _ _ _ hp => unit0_shape (parse_juniper_uplinks_from_xml_mem_unit0 hp)⟩

/-- Witness for C9: concrete uplink-marked interfaces returned by the
JSON parser (a physical name) and the XML parser (a unit-0 name), run
through the theorem. -/
theorem parse_juniper_unit0_only_witness :
    ('.' ∉ "xe-0/0/0".data ∨ ∃ pre, "xe-0/0/0".data = pre ++ ['.', '0']) ∧
      ('.' ∉ "ae1.0".data ∨ ∃ pre, "ae1.0".data = pre ++ ['.', '0']) :=
  ⟨parse_juniper_unit0_only.1
      (juniperSinglePhy (juniperIfaceJson "xe-0/0/0" "Uplink: a" Option.none))
      false ("xe-0/0/0", "Uplink: a") (by decide),
    parse_juniper_unit0_only.2
      (juniperIfaceXml "ae1.0" "Uplink: b" Option.none)
      false ("ae1.0", "Uplink: b") (by decide)⟩

/-! ## Oper-status filtering at the bootstrap parse (C10, C7) -/

theorem parse_juniper_single_eq (iface : PyVal) (b : Bool) :
    parse_juniper_uplinks (juniperSinglePhy iface) b =
      (juniperKeep iface b).toList := by
  cases h : juniperKeep iface b <;>
    simp [parse_juniper_uplinks, juniperSinglePhy, pyInfosOf, juniperIfaceList,
      pyGetOr, pyGet, pyOr, pyIter, PyVal.truthy, pyd, pyl, PyDict.ofList,
      PyList.ofList, PyDict.get?, PyList.toList, h]

theorem pyOr_str_empty_asStr (s : String) :
    (pyOr (.str s) (.str "")).asStr = s := by
  by_cases h : s = "" <;> simp [pyOr, PyVal.truthy, PyVal.asStr, h]

theorem juniperIfaceJson_name_desc (name desc : String) (oper : Option String)
    (hsn : pystripS name = name) (hsd : pystripS desc = desc) :
    _juniper_iface_name_desc (juniperIfaceJson name desc oper) = (name, desc) := by
  cases oper <;>
    simp [juniperIfaceJson, _juniper_iface_name_desc, _juniper_first_data_str,
      pyGet, pyd, pyl, PyDict.ofList, PyList.ofList, PyDict.get?, PyVal.truthy,
      pyOr_str_empty_asStr, hsn, hsd]

theorem juniperIfaceJson_oper_none (name desc : String) :
    _juniper_iface_oper_status (juniperIfaceJson name desc Option.none) =
      Option.none := by
  simp [juniperIfaceJson, _juniper_iface_oper_status, _juniper_data, pyGet,
    pyd, pyl, PyDict.ofList, PyList.ofList, PyDict.get?, PyVal.truthy]

theorem juniperIfaceJson_oper_some (name desc oper : String)
    (hso : pystripS oper ≠ "") :
    _juniper_iface_oper_status (juniperIfaceJson name desc (some oper)) =
      some (pystripS oper) := by
  simp [juniperIfaceJson, _juniper_iface_oper_status, _juniper_data, pyGet,
    pyd, pyl, PyDict.ofList, PyList.ofList, PyDict.get?, PyVal.truthy,
    pyStrRender, hso]

theorem juniper_parse_keeps_oper_absent (name desc : String)
    (hsn : pystripS name = name) (hn : name ≠ "")
    (hsd : pystripS desc = desc) (hm : strSubOf "Uplink:" desc = true)
    (hu : _juniper_uplink_is_unit0 name = true) :
    parse_juniper_uplinks
      (juniperSinglePhy (juniperIfaceJson name desc Option.none)) true =
      [(name, desc)] := by
  rw [parse_juniper_single_eq]
  simp [juniperKeep, juniperIfaceJson_name_desc name desc Option.none hsn hsd,
    juniperIfaceJson_oper_none, hn, hm, hu]

theorem juniper_parse_drops_oper_down (name desc oper : String)
    (hso : pystripS oper ≠ "") (hlow : pylowerS (pystripS oper) ≠ "up") :
    parse_juniper_uplinks
      (juniperSinglePhy (juniperIfaceJson name desc (some oper))) true = [] := by
  rw [parse_juniper_single_eq]
  simp only [juniperKeep, juniperIfaceJson_oper_some name desc oper hso]
  split
  · rw [if_pos ⟨by trivial, by simpa using hlow⟩]
    rfl
  · rfl

theorem juniper_parse_xml_keeps_oper_absent (name desc : String)
    (hsn : pystripS name = name) (hn : name ≠ "")
    (hsd : pystripS desc = desc) (hm : strSubOf "Uplink:" desc = true)
    (hu : _juniper_uplink_is_unit0 name = true) :
    parse_juniper_uplinks_from_xml
      (juniperIfaceXml name desc Option.none) true = [(name, desc)] := by
  have l1 : xmlLocalName "physical-interface" = "physical-interface" := by decide
  have l2 : xmlLocalName "name" = "name" := by decide
  have l3 : xmlLocalName "description" = "description" := by decide
  simp [parse_juniper_uplinks_from_xml, juniperIfaceXml, XElem.iterAll,
    XForest.iterAll, XForest.ofList, XElem.childList, XForest.toList,
    XElem.tag, XElem.text, _juniper_xml_iface_name_desc_oper,
    _juniper_xml_child, _juniper_xml_elem_text, xmlTextTruthy,
    List.find?_cons, l1, l2, l3, hsn, hsd, hn, hm, hu]

theorem juniper_parse_xml_drops_oper_down (name desc oper : String)
    (hso : pystripS oper ≠ "") (hlow : pylowerS (pystripS oper) ≠ "up") :
    parse_juniper_uplinks_from_xml
      (juniperIfaceXml name desc (some oper)) true = [] := by
  have l1 : xmlLocalName "physical-interface" = "physical-interface" := by decide
  have l2 : xmlLocalName "name" = "name" := by decide
  have l3 : xmlLocalName "description" = "description" := by decide
  have l4 : xmlLocalName "oper-status" = "oper-status" := by decide
  simp [parse_juniper_uplinks_from_xml, juniperIfaceXml, XElem.iterAll,
    XForest.iterAll, XForest.ofList, XElem.childList, XForest.toList,
    XElem.tag, XElem.text, _juniper_xml_iface_name_desc_oper,
    _juniper_xml_child, _juniper_xml_elem_text, xmlTextTruthy,
    List.find?_cons, l1, l2, l3, l4, hso, hlow]

/-- Claim C10 (theorem): under `require_link_up=True`, both Juniper
parsers retain an uplink-marked interface whose oper-status is absent,
and exclude one whose present oper-status lowercases to something other
than `up`. -/
theorem parse_juniper_oper_filter :
    (∀ name desc : String,
      pystripS name = name → name ≠ "" →
      pystripS desc = desc → strSubOf "Uplink:" desc = true →
      _juniper_uplink_is_unit0 name = true →
      parse_juniper_uplinks
        (juniperSinglePhy (juniperIfaceJson name desc Option.none)) true =
        [(name, desc)]) ∧
    (∀ name desc oper : String,
      pystripS oper ≠ "" → pylowerS (pystripS oper) ≠ "up" →
      parse_juniper_uplinks
        (juniperSinglePhy (juniperIfaceJson name desc (some oper))) true = []) ∧
    (∀ name desc : String,
      pystripS name = name → name ≠ "" →
      pystripS desc = desc → strSubOf "Uplink:" desc = true →
      _juniper_uplink_is_unit0 name = true →
      parse_juniper_uplinks_from_xml
        (juniperIfaceXml name desc Option.none) true = [(name, desc)]) ∧
    (∀ name desc oper : String,
      pystripS oper ≠ "" → pylowerS (pystripS oper) ≠ "up" →
      parse_juniper_uplinks_from_xml
        (juniperIfaceXml name desc (some oper)) true = []) :=
  ⟨juniper_parse_keeps_oper_absent, juniper_parse_drops_oper_down,
    juniper_parse_xml_keeps_oper_absent, juniper_parse_xml_drops_oper_down⟩

/-- Witness for C10 at concrete interfaces: `xe-0/0/0` marked and with no
oper-status is retained by both parsers; with oper-status `down` it is
excluded by both. -/
theorem parse_juniper_oper_filter_witness :
    parse_juniper_uplinks
        (juniperSinglePhy (juniperIfaceJson "xe-0/0/0" "Uplink: a" Option.none))
        true = [("xe-0/0/0", "Uplink: a")] ∧
      parse_juniper_uplinks
        (juniperSinglePhy (juniperIfaceJson "xe-0/0/0" "Uplink: a" (some "down")))
        true = [] ∧
      parse_juniper_uplinks_from_xml
        (juniperIfaceXml "xe-0/0/0" "Uplink: a" Option.none) true =
        [("xe-0/0/0", "Uplink: a")] ∧
      parse_juniper_uplinks_from_xml
        (juniperIfaceXml "xe-0/0/0" "Uplink: a" (some "down")) true = [] :=
  ⟨parse_juniper_oper_filter.1 "xe-0/0/0" "Uplink: a" (by decide) (by decide)
      (by decide) (by decide) (by decide),
    parse_juniper_oper_filter.2.1 "xe-0/0/0" "Uplink: a" "down" (by decide)
      (by decide),
    parse_juniper_oper_filter.2.2.1 "xe-0/0/0" "Uplink: a" (by decide)
      (by decide) (by decide) (by decide) (by decide),
    parse_juniper_oper_filter.2.2.2 "xe-0/0/0" "Uplink: a" "down" (by decide)
      (by decide)⟩

/-! ## Arista pipeline lemmas (C2, C3, C7) -/

theorem aristaKeep_marker {nv : String × PyVal} {nd : String × String}
    (h : aristaKeep nv = some nd) : strSubOf "Uplink:" nd.2 = true := by
  simp only [aristaKeep] at h
  split at h
  · split at h
    · next hb =>
      cases h
      simpa using hb
    · simp at h
  · simp at h

theorem parse_arista_mem_marker {j : PyVal} {nd : String × String}
    (h : nd ∈ parse_arista_uplinks j) : strSubOf "Uplink:" nd.2 = true := by
  unfold parse_arista_uplinks at h
  rw [List.mem_filterMap] at h
  obtain ⟨nv, -, hnv⟩ := h
  exact aristaKeep_marker hnv

theorem juniperKeep_marker {iface : PyVal} {b : Bool} {p : String × String}
    (h : juniperKeep iface b = some p) : strSubOf "Uplink:" p.2 = true := by
  simp only [juniperKeep] at h
  split at h
  · next hg =>
    split at h
    · simp at h
    · split at h
      · simp at h
      · cases h
        simpa using hg.2
  · simp at h

theorem parse_juniper_mem_marker {j : PyVal} {b : Bool} {nd : String × String}
    (h : nd ∈ parse_juniper_uplinks j b) : strSubOf "Uplink:" nd.2 = true := by
  unfold parse_juniper_uplinks at h
  rw [List.mem_flatMap] at h
  obtain ⟨info, -, hmem⟩ := h
  rw [List.mem_append] at hmem
  rcases hmem with hm | hm <;>
  · rw [List.mem_filterMap] at hm
    obtain ⟨x, -, hx⟩ := hm
    exact juniperKeep_marker hx

theorem arista_parse_single (name desc : String)
    (hsd : pystripS desc = desc) (hm : strSubOf "Uplink:" desc = true) :
    parse_arista_uplinks (pyd [("interfaceDescriptions",
      pyd [(name, pyd [("description", .str desc)])])]) = [(name, desc)] := by
  have hd0 : desc ≠ "" := by
    intro h0
    rw [h0] at hm
    exact absurd hm (by decide)
  simp [parse_arista_uplinks, aristaKeep, pyItems, pyGetOr, pyGet, pyOr, pyd,
    PyDict.ofList, PyDict.get?, PyDict.toList, PyVal.truthy, PyVal.asStr,
    List.filterMap_cons, hsd, hm, hd0]

theorem link_up_truthy {v : PyVal} (h : _arista_interface_link_up v = true) :
    v.truthy = true := by
  by_contra hns
  rw [Bool.not_eq_true] at hns
  simp [_arista_interface_link_up, hns] at h

theorem aristaStep_some_linkUp {dev : AristaDevice} {n d : String}
    {row : UplinkRow} (h : aristaStep dev n d = some row) :
    _arista_interface_link_up (aristaIfObj dev n) = true := by
  simp only [aristaStep] at h
  split at h
  · simp at h
  · next hcond => simpa using hcond

theorem get_arista_ok_rows {dev : AristaDevice} {rows : List UplinkRow}
    (h : get_arista_uplink_stats dev = .ok rows) :
    ∀ r ∈ rows, ∃ nd ∈ parse_arista_uplinks ((dev.descResp).getD .none),
      aristaStep dev nd.1 nd.2 = some r := by
  simp only [get_arista_uplink_stats] at h
  split at h
  · simp at h
  · split at h
    · injection h with h2
      subst h2
      simp
    · injection h with h2
      subst h2
      intro r hr
      rw [List.mem_filterMap] at hr
      obtain ⟨nd, hmem, hstep⟩ := hr
      exact ⟨nd, hmem, hstep⟩

/-- Claim C2 (amended theorem): every Arista row comes from a
bootstrap-listed interface whose description carries the uplink marker
and whose detail query shows it link-up; every Juniper bootstrap
candidate carries the marker.  (The Juniper aggregate and LAG-member
rows derived from a candidate are not themselves re-checked — the
counterexample exhibits a down, unmarked member row.) -/
theorem uplink_rows_marker_and_up :
    (∀ (dev : AristaDevice) (rows : List UplinkRow),
      get_arista_uplink_stats dev = .ok rows →
      ∀ r ∈ rows, ∃ nd ∈ parse_arista_uplinks ((dev.descResp).getD .none),
        strSubOf "Uplink:" nd.2 = true ∧
        _arista_interface_link_up (aristaIfObj dev nd.1) = true ∧
        aristaStep dev nd.1 nd.2 = some r) ∧
    (∀ (j : PyVal) (b : Bool) (nd : String × String),
      nd ∈ parse_juniper_uplinks j b → strSubOf "Uplink:" nd.2 = true) := by
  constructor
  · intro dev rows h r hr
    obtain ⟨nd, hmem, hstep⟩ := get_arista_ok_rows h r hr
    exact ⟨nd, hmem, parse_arista_mem_marker hmem, aristaStep_some_linkUp hstep,
      hstep⟩
  · intro j b nd h
    exact parse_juniper_mem_marker h

/-- Claim C2 (counterexample): on `jDevC2` the Juniper pipeline emits an
aggregate row with an empty description and a LAG-member row
`et-0/0/1` whose description `core-link` carries no uplink marker and
whose own detail payload reports oper-status `down` — both violate the
claimed invariant. -/
theorem juniper_lag_rows_bypass_filters :
    get_juniper_uplink_stats jDevC2 = .ok
      [{ name := .str "ae5", description := .str "", mediaType := .none,
         bandwidth := .none, duplex := .none, physicalAddress := .none,
         mtu := .none, txPower := .none, forwardingModel := .none,
         physicalInterface := some (.str "ae5"),
         aggregateInterface := some (.str "ae5"),
         logicalInterface := some (.str "ae5.0"),
         isLag := some (.bool true) },
       { name := .str "et-0/0/1", description := .str "core-link",
         mediaType := .none, bandwidth := .none, duplex := .none,
         physicalAddress := .none, mtu := .none, txPower := .none,
         forwardingModel := .none,
         physicalInterface := some (.str "et-0/0/1"),
         aggregateInterface := some (.str "ae5"),
         logicalInterface := some (.str "ae5.0") }] ∧
      strSubOf "Uplink:" "core-link" = false ∧
      _juniper_iface_oper_status jDevC2MemberDetail = some "down" ∧
      strSubOf "Uplink:" "" = false := by
  refine ⟨by decide, by decide, by decide, by decide⟩

/-- Claim C3 (amended theorem): (i) bootstrap extraction failure is a
device error; (ii) a transceiver (and switchport) extraction failure
degrades only those fields — the row is still produced with the detail
fields intact and `mediaType`/`txPower` null; (iii) a detail extraction
failure silently drops that interface's record (the link-up check cannot
pass) while the device still returns a row list, not an error. -/
theorem arista_step_failure_semantics :
    (∀ det tr sw : String → Option PyVal,
      get_arista_uplink_stats ⟨Option.none, det, tr, sw⟩ =
        .error "не удалось получить show interfaces description | json") ∧
    (∀ (name desc : String) (if_obj : PyVal),
      pystripS desc = desc → strSubOf "Uplink:" desc = true →
      _arista_interface_link_up if_obj = true →
      get_arista_uplink_stats (aristaSingleDev name desc
        (some (pyd [("interfaces", pyd [(name, if_obj)])]))
        Option.none Option.none) =
      .ok [{ name := pyOr (pyGet if_obj "name") (.str name),
             description := pyOr (pyGet if_obj "description") (.str desc),
             mediaType := .none,
             bandwidth := pyGet if_obj "bandwidth",
             duplex := pyGet if_obj "duplex",
             physicalAddress := pyGet if_obj "physicalAddress",
             mtu := pyGet if_obj "mtu",
             txPower := .none,
             forwardingModel := pyGet if_obj "forwardingModel",
             switchportConfiguration := Option.none }]) ∧
    (∀ (name desc : String) (tr sw : Option PyVal),
      pystripS desc = desc → strSubOf "Uplink:" desc = true →
      get_arista_uplink_stats (aristaSingleDev name desc Option.none tr sw) =
        .ok []) := by
  refine ⟨fun det tr sw => rfl, fun name desc if_obj hsd hm hup => ?_,
    fun name desc tr sw hsd hm => ?_⟩
  · have htr := link_up_truthy hup
    have hparse := arista_parse_single name desc hsd hm
    simp only [pyd, PyDict.ofList] at hparse
    have hg2 : pyGet (pyd [(name, if_obj)]) name = if_obj := by
      simp [pyGet, pyd, PyDict.ofList, PyDict.get?]
    have hobj : aristaIfObj (aristaSingleDev name desc
        (some (pyd [("interfaces", pyd [(name, if_obj)])]))
        Option.none Option.none) name = if_obj := by
      unfold aristaIfObj
      rw [show (aristaSingleDev name desc
          (some (pyd [("interfaces", pyd [(name, if_obj)])]))
          Option.none Option.none).detailResp (arista_cli_interface_name name) =
        some (pyd [("interfaces", pyd [(name, if_obj)])]) from rfl]
      rw [Option.getD_some]
      rw [show pyGetOr (pyOr (pyd [("interfaces", pyd [(name, if_obj)])])
        (pyd [])) "interfaces" (pyd []) = pyd [(name, if_obj)] from rfl]
      rw [pyGetOr, hg2, pyOr, if_pos htr]
    have htobj : aristaTransObj (aristaSingleDev name desc
        (some (pyd [("interfaces", pyd [(name, if_obj)])]))
        Option.none Option.none) name = pyd [] := rfl
    have hstep : aristaStep (aristaSingleDev name desc
        (some (pyd [("interfaces", pyd [(name, if_obj)])]))
        Option.none Option.none) name desc =
        some { name := pyOr (pyGet if_obj "name") (.str name),
               description := pyOr (pyGet if_obj "description") (.str desc),
               mediaType := .none,
               bandwidth := pyGet if_obj "bandwidth",
               duplex := pyGet if_obj "duplex",
               physicalAddress := pyGet if_obj "physicalAddress",
               mtu := pyGet if_obj "mtu",
               txPower := .none,
               forwardingModel := pyGet if_obj "forwardingModel",
               switchportConfiguration := Option.none } := by
      simp only [aristaStep, hobj, htobj]
      rw [if_neg (by simp [hup])]
      simp [aristaSingleDev, pyGetOr, pyGet, pyOr, PyVal.truthy, pyd,
        PyDict.ofList, PyDict.get?]
    have hparse2 := arista_parse_single name desc hsd hm
    have hdesc : (aristaSingleDev name desc
        (some (pyd [("interfaces", pyd [(name, if_obj)])]))
        Option.none Option.none).descResp =
        some (pyd [("interfaceDescriptions",
          pyd [(name, pyd [("description", .str desc)])])]) := rfl
    have htb : (pyd [("interfaceDescriptions",
        pyd [(name, pyd [("description", .str desc)])])]).truthy = true := rfl
    simp [get_arista_uplink_stats, hdesc, htb, hparse2, List.filterMap_cons,
      hstep]
  · have hparse := arista_parse_single name desc hsd hm
    simp only [pyd, PyDict.ofList] at hparse
    simp [get_arista_uplink_stats, aristaSingleDev, hparse, aristaStep,
      aristaIfObj, aristaTransObj, pyGetOr, pyGet, pyOr, PyVal.truthy, pyd,
      PyDict.ofList, PyDict.get?, PyDict.toList, List.filterMap_cons,
      _arista_interface_link_up]

/-- Witness for C3's amended theorem at concrete devices: a bootstrap
failure errors; a transceiver/switchport failure still yields the row
with those fields null; a detail failure yields an empty row list. -/
theorem arista_step_failure_semantics_witness :
    get_arista_uplink_stats
        ⟨Option.none, fun _ => Option.none, fun _ => Option.none,
          fun _ => Option.none⟩ =
      .error "не удалось получить show interfaces description | json" ∧
    get_arista_uplink_stats (aristaSingleDev "Ethernet1" "Uplink: core"
        (some (pyd [("interfaces",
          pyd [("Ethernet1", pyd [("lineProtocolStatus", .str "up")])])]))
        Option.none Option.none) =
      .ok [{ name := pyOr (pyGet (pyd [("lineProtocolStatus", .str "up")]) "name")
               (.str "Ethernet1"),
             description := pyOr
               (pyGet (pyd [("lineProtocolStatus", .str "up")]) "description")
               (.str "Uplink: core"),
             mediaType := .none,
             bandwidth := pyGet (pyd [("lineProtocolStatus", .str "up")]) "bandwidth",
             duplex := pyGet (pyd [("lineProtocolStatus", .str "up")]) "duplex",
             physicalAddress :=
               pyGet (pyd [("lineProtocolStatus", .str "up")]) "physicalAddress",
             mtu := pyGet (pyd [("lineProtocolStatus", .str "up")]) "mtu",
             txPower := .none,
             forwardingModel :=
               pyGet (pyd [("lineProtocolStatus", .str "up")]) "forwardingModel",
             switchportConfiguration := Option.none }] ∧
    get_arista_uplink_stats
        (aristaSingleDev "Ethernet1" "Uplink: core" Option.none Option.none
          Option.none) = .ok [] :=
  ⟨arista_step_failure_semantics.1 _ _ _,
    arista_step_failure_semantics.2.1 "Ethernet1" "Uplink: core"
      (pyd [("lineProtocolStatus", .str "up")]) (by decide) (by decide)
      (by decide),
    arista_step_failure_semantics.2.2 "Ethernet1" "Uplink: core" Option.none
      Option.none (by decide) (by decide)⟩

/-- Claim C3 (counterexample): with one requested uplink whose detail
extraction fails while the transceiver extraction succeeds, the code
returns an empty row list — the claimed degraded record (detail fields
null) is not produced; the interface's record is dropped. -/
theorem arista_detail_failure_drops_record :
    parse_arista_uplinks ((aristaSingleDev "Ethernet1" "Uplink: core"
        Option.none
        (some (pyd [("interfaces",
          pyd [("Ethernet1", pyd [("mediaType", .str "10GBASE-SR")])])]))
        Option.none).descResp.getD .none) = [("Ethernet1", "Uplink: core")] ∧
      get_arista_uplink_stats (aristaSingleDev "Ethernet1" "Uplink: core"
        Option.none
        (some (pyd [("interfaces",
          pyd [("Ethernet1", pyd [("mediaType", .str "10GBASE-SR")])])]))
        Option.none) = .ok [] :=
  ⟨by decide, by decide⟩

/-- Witness for C2's amended theorem: a concrete Arista run traces its
single row back to a marked, link-up bootstrap candidate; a concrete
Juniper candidate list carries the marker. -/
theorem uplink_rows_marker_and_up_witness :
    (∃ nd ∈ parse_arista_uplinks
        ((aristaSingleDev "Ethernet1" "Uplink: core"
          (some (pyd [("interfaces",
            pyd [("Ethernet1", pyd [("lineProtocolStatus", .str "up")])])]))
          Option.none Option.none).descResp.getD .none),
      strSubOf "Uplink:" nd.2 = true ∧
      _arista_interface_link_up
        (aristaIfObj (aristaSingleDev "Ethernet1" "Uplink: core"
          (some (pyd [("interfaces",
            pyd [("Ethernet1", pyd [("lineProtocolStatus", .str "up")])])]))
          Option.none Option.none) nd.1) = true ∧
      aristaStep (aristaSingleDev "Ethernet1" "Uplink: core"
          (some (pyd [("interfaces",
            pyd [("Ethernet1", pyd [("lineProtocolStatus", .str "up")])])]))
          Option.none Option.none) nd.1 nd.2 =
        some { name := .str "Ethernet1", description := .str "Uplink: core",
               mediaType := .none, bandwidth := .none, duplex := .none,
               physicalAddress := .none, mtu := .none, txPower := .none,
               forwardingModel := .none }) ∧
    strSubOf "Uplink:" "Uplink: transit" = true :=
  ⟨uplink_rows_marker_and_up.1
      (aristaSingleDev "Ethernet1" "Uplink: core"
        (some (pyd [("interfaces",
          pyd [("Ethernet1", pyd [("lineProtocolStatus", .str "up")])])]))
        Option.none Option.none)
      [{ name := .str "Ethernet1", description := .str "Uplink: core",
         mediaType := .none, bandwidth := .none, duplex := .none,
         physicalAddress := .none, mtu := .none, txPower := .none,
         forwardingModel := .none }]
      (by decide)
      { name := .str "Ethernet1", description := .str "Uplink: core",
        mediaType := .none, bandwidth := .none, duplex := .none,
        physicalAddress := .none, mtu := .none, txPower := .none,
        forwardingModel := .none }
      (by decide),
    uplink_rows_marker_and_up.2 ((jDevC2.descResp).getD .none) true
      ("ae5.0", "Uplink: transit") (by decide)⟩

/-! ## Where the up-filter is applied (C7) -/

theorem juniper_parse_keeps_down_without_flag (name desc oper : String)
    (hsn : pystripS name = name) (hn : name ≠ "")
    (hsd : pystripS desc = desc) (hm : strSubOf "Uplink:" desc = true)
    (hu : _juniper_uplink_is_unit0 name = true) :
    parse_juniper_uplinks
      (juniperSinglePhy (juniperIfaceJson name desc (some oper))) false =
      [(name, desc)] := by
  rw [parse_juniper_single_eq]
  simp [juniperKeep, juniperIfaceJson_name_desc name desc (some oper) hsn hsd,
    hn, hm, hu]

/-- Claim C7 (amended theorem): for Arista the bootstrap parse reads only
the description field (two bootstrap entries agreeing on `description`
are treated identically) and the link-up filter acts on the detail
response; for Juniper the link-up filter acts already at the bootstrap
parse — with `require_link_up=True` a down interface is excluded there,
while the very same bootstrap payload parsed without the flag yields it. -/
theorem up_filter_application_points :
    (∀ (n : String) (kvs kvs2 : PyDict),
      pyGet (.dict kvs) "description" = pyGet (.dict kvs2) "description" →
      aristaKeep (n, .dict kvs) = aristaKeep (n, .dict kvs2)) ∧
    (∀ (dev : AristaDevice) (n d : String) (row : UplinkRow),
      aristaStep dev n d = some row →
      _arista_interface_link_up (aristaIfObj dev n) = true) ∧
    (∀ name desc oper : String,
      pystripS oper ≠ "" → pylowerS (pystripS oper) ≠ "up" →
      parse_juniper_uplinks
        (juniperSinglePhy (juniperIfaceJson name desc (some oper))) true = []) ∧
    (∀ name desc oper : String,
      pystripS name = name → name ≠ "" →
      pystripS desc = desc → strSubOf "Uplink:" desc = true →
      _juniper_uplink_is_unit0 name = true →
      parse_juniper_uplinks
        (juniperSinglePhy (juniperIfaceJson name desc (some oper))) false =
        [(name, desc)]) := by
  refine ⟨fun n kvs kvs2 hdes => ?_, fun dev n d row h => aristaStep_some_linkUp h,
    juniper_parse_drops_oper_down,
    fun name desc oper hsn hn hsd hm hu =>
      juniper_parse_keeps_down_without_flag name desc oper hsn hn hsd hm hu⟩
  simp only [aristaKeep, hdes]

/-- Claim C7 (counterexample): the Juniper pipeline excludes a marked but
down interface while parsing the bootstrap listing itself — the device
result is empty although no detail query ever ran (every detail oracle of
`jDevC7` is empty), and the same bootstrap payload parsed without the
up-filter still lists the interface. -/
theorem juniper_up_filter_applied_at_bootstrap :
    get_juniper_uplink_stats jDevC7 = .ok [] ∧
      parse_juniper_uplinks ((jDevC7.descResp).getD .none) false =
        [("xe-0/0/0", "Uplink: a")] ∧
      parse_juniper_uplinks ((jDevC7.descResp).getD .none) true = [] :=
  ⟨by decide, by decide, by decide⟩

/-- Witness for C7's amended theorem at concrete inputs: two bootstrap
entries differing only in status fields parse identically for Arista; a
concrete Arista step implies detail-side link-up; the Juniper bootstrap
parse excludes `down` with the flag and keeps it without. -/
theorem up_filter_application_points_witness :
    aristaKeep ("Ethernet1",
        pyd [("description", .str "Uplink: x"),
          ("lineProtocolStatus", .str "down")]) =
      aristaKeep ("Ethernet1", pyd [("description", .str "Uplink: x")]) ∧
    _arista_interface_link_up
      (aristaIfObj (aristaSingleDev "Ethernet1" "Uplink: core"
        (some (pyd [("interfaces",
          pyd [("Ethernet1", pyd [("lineProtocolStatus", .str "up")])])]))
        Option.none Option.none) "Ethernet1") = true ∧
    parse_juniper_uplinks
        (juniperSinglePhy (juniperIfaceJson "xe-0/0/0" "Uplink: a"
          (some "down"))) true = [] ∧
    parse_juniper_uplinks
        (juniperSinglePhy (juniperIfaceJson "xe-0/0/0" "Uplink: a"
          (some "down"))) false = [("xe-0/0/0", "Uplink: a")] :=
  ⟨up_filter_application_points.1 "Ethernet1"
      (PyDict.ofList [("description", .str "Uplink: x"),
        ("lineProtocolStatus", .str "down")])
      (PyDict.ofList [("description", .str "Uplink: x")]) (by decide),
    up_filter_application_points.2.1
      (aristaSingleDev "Ethernet1" "Uplink: core"
        (some (pyd [("interfaces",
          pyd [("Ethernet1", pyd [("lineProtocolStatus", .str "up")])])]))
        Option.none Option.none) "Ethernet1" "Uplink: core"
      { name := .str "Ethernet1", description := .str "Uplink: core",
        mediaType := .none, bandwidth := .none, duplex := .none,
        physicalAddress := .none, mtu := .none, txPower := .none,
        forwardingModel := .none }
      (by decide),
    up_filter_application_points.2.2.1 "xe-0/0/0" "Uplink: a" "down"
      (by decide) (by decide),
    up_filter_application_points.2.2.2 "xe-0/0/0" "Uplink: a" "down"
      (by decide) (by decide) (by decide) (by decide) (by decide)⟩

/-! ## Fleet scheduler: one entry per device (C1) -/

theorem lookup_append_left {m1 m2 : List (String × FleetEntry)} {k : String} :
    (m1 ++ m2).lookup k =
      match m1.lookup k with
      | some v => some v
      | Option.none => m2.lookup k := by
  induction m1 with
  | nil => simp [List.lookup]
  | cons p t ih =>
    by_cases h : p.1 = k
    · simp [List.lookup, h]
    · have hb : (k == p.1) = false := by
        simpa using fun hh => h hh.symm
      simp [List.lookup, hb, ih]

theorem fleetCollect_eq_map (order : List String)
    (outcome : String → WorkerReturn) :
    ∀ (m : List (String × FleetEntry)), order.Nodup →
    (∀ d ∈ order, m.lookup d = Option.none) →
    order.foldl (fun m d => dictAssign m d (fleetEntryOf (outcome d))) m =
      m ++ order.map (fun d => (d, fleetEntryOf (outcome d))) := by
  induction order with
  | nil => intro m _ _; simp
  | cons d ds ih =>
    intro m hnd hfresh
    rw [List.foldl_cons]
    have hmiss : m.lookup d = Option.none := hfresh d (by simp)
    have hassign : dictAssign m d (fleetEntryOf (outcome d)) =
        m ++ [(d, fleetEntryOf (outcome d))] := by
      simp [dictAssign, hmiss]
    rw [hassign, ih (m ++ [(d, fleetEntryOf (outcome d))])
      ((List.nodup_cons.mp hnd).2) (fun e he => ?_)]
    · simp
    · rw [lookup_append_left, hfresh e (by simp [he])]
      have hne : d ≠ e := fun hde => (List.nodup_cons.mp hnd).1 (hde ▸ he)
      have hb : (e == d) = false := by simpa using fun hh => hne hh.symm
      simp [List.lookup, hb]

theorem lookup_map_self {order : List String} {f : String → FleetEntry}
    {d : String} (h : d ∈ order) :
    (order.map (fun x => (x, f x))).lookup d = some (f d) := by
  induction order with
  | nil => simp at h
  | cons a t ih =>
    rcases List.mem_cons.mp h with rfl | hmem
    · simp [List.lookup]
    · by_cases hda : a = d
      · subst hda; simp [List.lookup]
      · have hb : (d == a) = false := by simpa using fun hh => hda hh.symm
        simp [List.lookup, hb, ih hmem]

theorem lookup_map_self_none {order : List String} {f : String → FleetEntry}
    {d : String} (h : d ∉ order) :
    (order.map (fun x => (x, f x))).lookup d = Option.none := by
  induction order with
  | nil => simp [List.lookup]
  | cons a t ih =>
    have hda : a ≠ d := fun hh => h (by simp [hh])
    have hb : (d == a) = false := by simpa using fun hh => hda hh.symm
    simp only [List.map_cons, List.lookup, hb]
    exact ih (fun hm => h (by simp [hm]))

/-- Claim C1 (theorem): whatever completion order the pool yields (any
permutation of the requested device set) and whatever mix of outcomes —
row lists, error returns, skipped devices, escaped exceptions — the fleet
map holds exactly one entry per requested device, keyed by its name,
whose shape is the record list, an error descriptor, or the skipped
marker; no device is omitted and no other key appears. -/
theorem fleet_one_entry_per_device
    (devices order : List String) (outcome : String → WorkerReturn)
    (hperm : order.Perm devices) (hnd : devices.Nodup) :
    (∀ d ∈ devices,
      (fleetCollect order outcome).lookup d =
        some (fleetEntryOf (outcome d))) ∧
    (∀ d, ((fleetCollect order outcome).map Prod.fst).count d =
      if d ∈ devices then 1 else 0) ∧
    (∀ d ∈ devices, ∃ e,
      (fleetCollect order outcome).lookup d = some e ∧
      ((∃ rows, e = .records rows) ∨ (∃ msg, e = .failure msg) ∨
        e = .skippedDevice)) := by
  have hndo : order.Nodup := (hperm.nodup_iff).mpr hnd
  have hco : fleetCollect order outcome =
      order.map (fun d => (d, fleetEntryOf (outcome d))) := by
    unfold fleetCollect
    rw [fleetCollect_eq_map order outcome [] hndo (by simp [List.lookup])]
    simp
  have hmem : ∀ d, d ∈ order ↔ d ∈ devices := fun d => hperm.mem_iff
  refine ⟨fun d hd => ?_, fun d => ?_, fun d hd => ?_⟩
  · rw [hco]
    exact lookup_map_self ((hmem d).mpr hd)
  · rw [hco, List.map_map]
    have : (Prod.fst ∘ fun d => (d, fleetEntryOf (outcome d))) = id := rfl
    rw [this, List.map_id]
    by_cases hdm : d ∈ devices
    · rw [if_pos hdm]
      exact List.count_eq_one_of_mem hndo ((hmem d).mpr hdm)
    · rw [if_neg hdm]
      exact List.count_eq_zero_of_not_mem (fun hc => hdm ((hmem d).mp hc))
  · refine ⟨fleetEntryOf (outcome d), ?_, ?_⟩
    · rw [hco]
      exact lookup_map_self ((hmem d).mpr hd)
    · cases houtcome : fleetEntryOf (outcome d) with
      | records rows => exact Or.inl ⟨rows, rfl⟩
      | failure msg => exact Or.inr (Or.inl ⟨msg, rfl⟩)
      | skippedDevice => exact Or.inr (Or.inr rfl)

/-- Witness for C1 at a concrete four-device fleet with one success, one
error return, one skipped device and one escaped exception, collected in
a non-submission order. -/
theorem fleet_one_entry_per_device_witness :
    ((fleetCollect ["r2", "r4", "r3", "r1"]
        (fun d => if d = "r1" then .ok [] else if d = "r2" then .err "boom"
          else if d = "r3" then .skipped else .raised "worker died")).lookup
      "r1" = some (.records [])) ∧
    ((fleetCollect ["r2", "r4", "r3", "r1"]
        (fun d => if d = "r1" then .ok [] else if d = "r2" then .err "boom"
          else if d = "r3" then .skipped else .raised "worker died")).lookup
      "r4" = some (.failure "worker died")) ∧
    (((fleetCollect ["r2", "r4", "r3", "r1"]
        (fun d => if d = "r1" then .ok [] else if d = "r2" then .err "boom"
          else if d = "r3" then .skipped else .raised "worker died")).map
      Prod.fst).count "r3" = 1) := by
  refine ⟨?_, ?_, ?_⟩
  · exact (fleet_one_entry_per_device ["r1", "r2", "r3", "r4"]
      ["r2", "r4", "r3", "r1"] _ (by decide) (by decide)).1 "r1" (by decide)
  · exact (fleet_one_entry_per_device ["r1", "r2", "r3", "r4"]
      ["r2", "r4", "r3", "r1"] _ (by decide) (by decide)).1 "r4" (by decide)
  · have h := (fleet_one_entry_per_device ["r1", "r2", "r3", "r4"]
      ["r2", "r4", "r3", "r1"]
      (fun d => if d = "r1" then .ok [] else if d = "r2" then .err "boom"
        else if d = "r3" then .skipped else .raised "worker died")
      (by decide) (by decide)).2.1 "r3"
    rw [h]
    decide

/-! ### C8: the extractor recovers every assembled block -/

/-! ### Step lemmas for the inner scan -/

/-- Shifting by zero characters is the identity. -/
theorem XScanRes.addN_zero (r : XScanRes) : r.addN 0 = r := by
  cases r <;> rfl

/-- Shift composition: one more character on top of `k`. -/
theorem XScanRes.addOne_addN (k : Nat) (r : XScanRes) :
    (r.addN k).addOne = r.addN (k + 1) := by
  cases r <;> simp [XScanRes.addN, XScanRes.addOne, Nat.add_assoc]

/-- Shift composition. -/
theorem XScanRes.addN_addN (j k : Nat) (r : XScanRes) :
    (r.addN k).addN j = r.addN (k + j) := by
  cases r <;> simp [XScanRes.addN, Nat.add_assoc]

/-- A non-`<` character is skipped by the inner scan. -/
theorem xscan_plain {c : Char} (hc : ¬ c = '<') (t : List Char) (d : Int) :
    xscan (c :: t) d = (xscan t d).addOne := by
  have h : xscan (c :: t) d
      = if c = '<' then
          (match t with
           | [] => XScanRes.exhausted
           | c2 :: _ =>
             if c2 = '/' then
               (if d - 1 = 0 then
                 (match (c :: t).findIdx? (fun x => x = '>') with
                   | some k => XScanRes.found (k + 1)
                   | Option.none => XScanRes.stop)
               else (xscan t (d - 1)).addOne)
             else if c2.isWhitespace then (xscan t d).addOne
             else (xscan t (d + 1)).addOne)
        else (xscan t d).addOne := rfl
  rw [h, if_neg hc]

/-- An opening `<x` with a usable first tag character opens a new element. -/
theorem xscan_open {c2 : Char} (h2 : ¬ c2 = '/') (hw : c2.isWhitespace = false)
    (t : List Char) (d : Int) :
    xscan ('<' :: c2 :: t) d = (xscan (c2 :: t) (d + 1)).addOne := by
  have h : xscan ('<' :: c2 :: t) d
      = if c2 = '/' then
          (if d - 1 = 0 then
            (match ('<' :: c2 :: t).findIdx? (fun x => x = '>') with
              | some k => XScanRes.found (k + 1)
              | Option.none => XScanRes.stop)
          else (xscan (c2 :: t) (d - 1)).addOne)
        else if c2.isWhitespace then (xscan (c2 :: t) d).addOne
        else (xscan (c2 :: t) (d + 1)).addOne := rfl
  rw [h, if_neg h2, if_neg (by simp [hw])]

/-- A closing `</` at depth above one decrements and continues. -/
theorem xscan_close_pass (t : List Char) (d : Int) (hd : ¬ d - 1 = 0) :
    xscan ('<' :: '/' :: t) d = (xscan ('/' :: t) (d - 1)).addOne := by
  have h : xscan ('<' :: '/' :: t) d
      = if d - 1 = 0 then
          (match ('<' :: '/' :: t).findIdx? (fun x => x = '>') with
            | some k => XScanRes.found (k + 1)
            | Option.none => XScanRes.stop)
        else (xscan ('/' :: t) (d - 1)).addOne := rfl
  rw [h, if_neg hd]

/-- A closing `</` at depth one captures through the next `>`. -/
theorem xscan_close_hit (t : List Char) (d : Int) (hd : d - 1 = 0) :
    xscan ('<' :: '/' :: t) d
      = (match ('<' :: '/' :: t).findIdx? (fun x => x = '>') with
          | some k => XScanRes.found (k + 1)
          | Option.none => XScanRes.stop) := by
  have h : xscan ('<' :: '/' :: t) d
      = if d - 1 = 0 then
          (match ('<' :: '/' :: t).findIdx? (fun x => x = '>') with
            | some k => XScanRes.found (k + 1)
            | Option.none => XScanRes.stop)
        else (xscan ('/' :: t) (d - 1)).addOne := rfl
  rw [h, if_pos hd]

/-- A `<`-free prefix only shifts the scan result. -/
theorem xscan_chunk {s : List Char} (hs : ∀ c ∈ s, ¬ c = '<')
    (rest : List Char) (d : Int) :
    xscan (s ++ rest) d = (xscan rest d).addN s.length := by
  induction s with
  | nil => simp [XScanRes.addN_zero]
  | cons c t ih =>
    rw [List.cons_append, xscan_plain (hs c (by simp)),
      ih (fun x hx => hs x (by simp [hx])), XScanRes.addOne_addN]
    simp

/-- Rewriting `addOne` as a shift by one. -/
theorem XScanRes.addOne_eq (r : XScanRes) : r.addOne = r.addN 1 := by
  cases r <;> rfl

/-- Decomposition of a usable tag. -/
theorem tagOk_facts {tag : List Char} (h : tagOk tag = true) :
    ∃ th tt, tag = th :: tt ∧ ¬ th = '/' ∧ th.isWhitespace = false ∧
      (∀ c ∈ th :: tt, ¬ c = '<') ∧ (∀ c ∈ th :: tt, ¬ c = '>') := by
  cases tag with
  | nil => simp [tagOk] at h
  | cons th tt =>
    refine ⟨th, tt, rfl, ?_⟩
    simp [tagOk, List.all_eq_true] at h
    obtain ⟨⟨h1, h2⟩, h3a, h3b⟩ := h
    refine ⟨h1, by simpa using h2, ?_, ?_⟩
    · intro c hc
      rcases List.mem_cons.mp hc with rfl | hc
      · exact h3a.1
      · exact (h3b c hc).1
    · intro c hc
      rcases List.mem_cons.mp hc with rfl | hc
      · exact h3a.2
      · exact (h3b c hc).2

mutual

/-- Inside an element (depth at least one), scanning a rendered
well-formed fragment passes straight through, shifting the result by its
length. -/
theorem xscan_tree_pass :
    ∀ (x : XmlTree), x.wf = true → ∀ (rest : List Char) (d : Int), 1 ≤ d →
      xscan (XmlTree.render x ++ rest) d
        = (xscan rest d).addN (XmlTree.render x).length
  | .chunk s, hwf, rest, d, _ => by
    have hs : ∀ c ∈ s, ¬ c = '<' := by
      simp [XmlTree.wf, List.all_eq_true] at hwf
      intro c hc
      simpa using hwf c hc
    simpa [XmlTree.render] using xscan_chunk hs rest d
  | .node tag kids, hwf, rest, d, hd => by
    have hw' : tagOk tag = true ∧ XmlKids.wf kids = true := by
      simpa [XmlTree.wf, Bool.and_eq_true] using hwf
    obtain ⟨htag, hkids⟩ := hw'
    obtain ⟨th, tt, hteq, hslash, hws, hlt, hgt⟩ := tagOk_facts htag
    subst hteq
    have hth : ¬ th = '<' := hlt th (by simp)
    have htt : ∀ c ∈ tt, ¬ c = '<' := fun c hc => hlt c (by simp [hc])
    rw [show XmlTree.render (XmlTree.node (th :: tt) kids) ++ rest
        = '<' :: th :: (tt ++ ('>' :: (XmlKids.render kids
            ++ ('<' :: '/' :: (th :: (tt ++ ('>' :: rest))))))) from by
      simp [XmlTree.render]]
    rw [xscan_open hslash hws, xscan_plain hth, xscan_chunk htt,
      xscan_plain (show ¬ ('>' : Char) = '<' by decide),
      xscan_kids_pass kids hkids _ _ (by omega),
      xscan_close_pass _ _ (show ¬ d + 1 - 1 = 0 by omega),
      show d + 1 - 1 = d by omega,
      xscan_plain (show ¬ ('/' : Char) = '<' by decide),
      xscan_plain hth, xscan_chunk htt,
      xscan_plain (show ¬ ('>' : Char) = '<' by decide)]
    simp only [XScanRes.addOne_eq, XScanRes.addN_addN]
    congr 1
    simp [XmlTree.render]
    omega

/-- Inside an element, a rendered well-formed sibling sequence passes
straight through the scan. -/
theorem xscan_kids_pass :
    ∀ (f : XmlKids), f.wf = true → ∀ (rest : List Char) (d : Int), 1 ≤ d →
      xscan (XmlKids.render f ++ rest) d
        = (xscan rest d).addN (XmlKids.render f).length
  | .nil, _, rest, d, _ => by
    simp [XmlKids.render, XScanRes.addN_zero]
  | .cons t f, hwf, rest, d, hd => by
    have hw' : XmlTree.wf t = true ∧ XmlKids.wf f = true := by
      simpa [XmlKids.wf, Bool.and_eq_true] using hwf
    rw [show XmlKids.render (XmlKids.cons t f) ++ rest
        = XmlTree.render t ++ (XmlKids.render f ++ rest) from by
      simp [XmlKids.render]]
    rw [xscan_tree_pass t hw'.1 _ d hd, xscan_kids_pass f hw'.2 _ d hd,
      XScanRes.addN_addN]
    congr 1
    simp [XmlKids.render]
    omega

end

/-- The function `findIdx?` locates the first `>` right after a `>`-free run. -/
theorem findIdx_gt_eq {u : List Char} (hu : ∀ c ∈ u, ¬ c = '>')
    (w : List Char) :
    (u ++ '>' :: w).findIdx? (fun x => x = '>') = some u.length := by
  induction u with
  | nil => simp
  | cons c t ih =>
    have hc : (decide (c = '>')) = false := by simp [hu c (by simp)]
    simp [List.findIdx?_cons, hc, ih (fun x hx => hu x (by simp [hx]))]

/-- A closing `</` at depth one returns the block length when a `>` exists. -/
theorem xscan_close_hit_found (t : List Char) (d : Int) (hd : d - 1 = 0)
    (k : Nat) (hk : ('<' :: '/' :: t).findIdx? (fun x => x = '>') = some k) :
    xscan ('<' :: '/' :: t) d = XScanRes.found (k + 1) := by
  rw [xscan_close_hit t d hd, hk]

/-- Scanning a rendered well-formed element from its opening `<` at depth
zero captures exactly the element's span. -/
theorem xscan_top (tag : List Char) (kids : XmlKids)
    (hwf : XmlTree.wf (XmlTree.node tag kids) = true) (rest : List Char) :
    xscan (XmlTree.render (XmlTree.node tag kids) ++ rest) 0
      = XScanRes.found (XmlTree.render (XmlTree.node tag kids)).length := by
  obtain ⟨htag, hkids⟩ : tagOk tag = true ∧ XmlKids.wf kids = true := by
    simpa [XmlTree.wf, Bool.and_eq_true] using hwf
  obtain ⟨th, tt, hteq, hslash, hws, hlt, hgt⟩ := tagOk_facts htag
  subst hteq
  have hth : ¬ th = '<' := hlt th (by simp)
  have htt : ∀ c ∈ tt, ¬ c = '<' := fun c hc => hlt c (by simp [hc])
  have hu : ∀ c ∈ ('<' :: '/' :: th :: tt), ¬ c = '>' := by
    intro c hc
    rcases List.mem_cons.mp hc with rfl | hc
    · decide
    rcases List.mem_cons.mp hc with rfl | hc
    · decide
    · exact hgt c hc
  have hfi : (('<' :: '/' :: (th :: (tt ++ ('>' :: rest))))).findIdx?
        (fun x => x = '>')
      = some ('<' :: '/' :: th :: tt).length := by
    rw [show ('<' :: '/' :: (th :: (tt ++ ('>' :: rest))))
        = ('<' :: '/' :: th :: tt) ++ ('>' :: rest) from by simp]
    exact findIdx_gt_eq hu rest
  rw [show XmlTree.render (XmlTree.node (th :: tt) kids) ++ rest
      = '<' :: th :: (tt ++ ('>' :: (XmlKids.render kids
          ++ ('<' :: '/' :: (th :: (tt ++ ('>' :: rest))))))) from by
    simp [XmlTree.render]]
  rw [xscan_open hslash hws, xscan_plain hth, xscan_chunk htt,
    xscan_plain (show ¬ ('>' : Char) = '<' by decide),
    xscan_kids_pass kids hkids _ _ (by omega),
    xscan_close_hit_found (th :: (tt ++ ('>' :: rest))) (0 + 1)
      (by omega) _ hfi]
  simp only [XScanRes.addOne_eq, XScanRes.addN_addN, XScanRes.addN]
  congr 1
  simp [XmlTree.render]
  omega

/-- If the needle occurs nowhere, `find` reports no index. -/
theorem findSubIdx_eq_none {pat : List Char} :
    ∀ {g : List Char}, listSubOf pat g = false → findSubIdx pat g = Option.none
  | [], h => by
    have hp : pat.isPrefixOf [] = false := by
      cases pat with
      | nil => simp [listSubOf] at h
      | cons a l => rfl
    simp [findSubIdx, hp]
  | c :: t, h => by
    rw [listSubOf] at h
    rcases Bool.or_eq_false_iff.mp h with ⟨h1, h2⟩
    simp [findSubIdx, h1, findSubIdx_eq_none h2]

/-- A pattern that continues `<`-free cannot straddle the boundary between
a pattern-free garbage block and a following occurrence. -/
theorem not_prefixOf_straddle {pat g' rest : List Char} {c : Char}
    (hnp : pat.isPrefixOf (c :: g') = false)
    (htail : '<' ∉ pat.drop 1)
    (hrh : ∃ rt, rest = '<' :: rt) :
    pat.isPrefixOf ((c :: g') ++ rest) = false := by
  obtain ⟨rt, rfl⟩ := hrh
  by_contra hcon
  have hpre : pat <+: (c :: g') ++ '<' :: rt := by
    rw [← List.isPrefixOf_iff_prefix]
    simpa using hcon
  have htake : pat = ((c :: g') ++ '<' :: rt).take pat.length :=
    List.prefix_iff_eq_take.mp hpre
  by_cases hlen : pat.length ≤ (c :: g').length
  · rw [List.take_append_eq_append_take,
      Nat.sub_eq_zero_of_le hlen, List.take_zero, List.append_nil] at htake
    have hpg : pat <+: (c :: g') := by
      rw [List.prefix_iff_eq_take]
      exact htake
    exact absurd ( List.isPrefixOf_iff_prefix.mpr hpg) (by simp [hnp])
  · push_neg at hlen
    rw [List.take_append_eq_append_take,
      List.take_of_length_le (le_of_lt hlen)] at htake
    have hpos : pat.length - (c :: g').length
        = (pat.length - (c :: g').length - 1) + 1 := by
      simp only [List.length_cons] at hlen ⊢
      omega
    rw [hpos, List.take_succ_cons] at htake
    refine htail ?_
    rw [htake]
    simp

/-- Python find lands exactly at the start of the first real occurrence when
the garbage before it is occurrence-free. -/
theorem findSubIdx_skip {pat : List Char} (htail : '<' ∉ pat.drop 1) :
    ∀ (g : List Char) (rest : List Char), listSubOf pat g = false →
      pat.isPrefixOf rest = true → (∃ rt, rest = '<' :: rt) →
      findSubIdx pat (g ++ rest) = some g.length
  | [], rest, _, hpre, _ => by
    rw [List.nil_append]
    cases rest with
    | nil => simp [findSubIdx, hpre]
    | cons r rt => simp [findSubIdx, hpre]
  | c :: g', rest, hg, hpre, hrh => by
    rw [listSubOf] at hg
    rcases Bool.or_eq_false_iff.mp hg with ⟨h1, h2⟩
    have hstrad : pat.isPrefixOf (c :: (g' ++ rest)) = false := by
      simpa using not_prefixOf_straddle h1 htail hrh
    rw [List.cons_append, findSubIdx, if_neg (by simp [hstrad]),
      findSubIdx_skip htail g' rest h2 hpre hrh]
    simp

/-- A rendered element is at least one character long. -/
theorem render_node_pos (tag : List Char) (kids : XmlKids) :
    1 ≤ (XmlTree.render (XmlTree.node tag kids)).length := by
  simp [XmlTree.render]

/-- The assembled text is at least as long as the number of blocks in
it, so `length + 1` fuel always suffices for the outer loop. -/
theorem xmlAssemble_length_ge :
    ∀ (parts : List (XmlTree × List Char)) (g0 : List Char),
      (∀ p ∈ parts, ∃ tag kids, p.1 = XmlTree.node tag kids) →
      parts.length ≤ (xmlAssemble g0 parts).length
  | [], g0, _ => by simp [xmlAssemble]
  | p :: ps, g0, hp => by
    obtain ⟨tag, kids, hpk⟩ := hp p (by simp)
    have hsplit : xmlAssemble g0 (p :: ps)
        = g0 ++ (XmlTree.render p.1 ++ xmlAssemble p.2 ps) := by
      simp [xmlAssemble]
    have h2 := xmlAssemble_length_ge ps p.2 (fun q hq => hp q (by simp [hq]))
    have h1 : 1 ≤ (XmlTree.render p.1).length := by
      rw [hpk]
      exact render_node_pos tag kids
    rw [hsplit]
    simp only [List.length_append, List.length_cons]
    omega

/-- One productive iteration of the outer extractor loop. -/
theorem xblocksGo_step (f : Nat) (cs : List Char) (idx : Nat) (n : Nat)
    (hfind : findSubIdx "<interface-information".data cs = some idx)
    (hscan : xscan (cs.drop idx) 0 = XScanRes.found n) :
    xblocksGo (f + 1) cs
      = (cs.drop idx).take n :: xblocksGo f ((cs.drop idx).drop n) := by
  rw [xblocksGo, hfind]
  simp only [hscan]

/-- The outer loop recovers every assembled block, in order. -/
theorem xblocksGo_assemble :
    ∀ (parts : List (XmlTree × List Char)) (g0 : List Char) (fuel : Nat),
      parts.length < fuel →
      (∀ p ∈ parts,
        (∃ kids, p.1 = XmlTree.node "interface-information".data kids)
        ∧ p.1.wf = true
        ∧ listSubOf "<interface-information".data p.2 = false) →
      listSubOf "<interface-information".data g0 = false →
      xblocksGo fuel (xmlAssemble g0 parts)
        = parts.map (fun p => XmlTree.render p.1)
  | [], g0, fuel, hfuel, _, hg0 => by
    obtain ⟨f, rfl⟩ : ∃ f, fuel = f + 1 := ⟨fuel - 1, by omega⟩
    rw [show xmlAssemble g0 [] = g0 from by simp [xmlAssemble],
      xblocksGo, findSubIdx_eq_none hg0]
    rfl
  | (x, g1) :: ps, g0, fuel, hfuel, hp, hg0 => by
    obtain ⟨f, rfl⟩ : ∃ f, fuel = f + 1 := ⟨fuel - 1, by omega⟩
    obtain ⟨⟨kids, hxk0⟩, hxwf, hg1⟩ := hp (x, g1) (by simp)
    have hxk : x = XmlTree.node "interface-information".data kids := hxk0
    subst hxk
    have hpat : ("<interface-information".data)
        = '<' :: "interface-information".data := by decide
    have htail : '<' ∉ ("<interface-information".data).drop 1 := by decide
    have hsplit : xmlAssemble g0
          ((XmlTree.node "interface-information".data kids, g1) :: ps)
        = g0 ++ (XmlTree.render (XmlTree.node "interface-information".data kids)
            ++ xmlAssemble g1 ps) := by
      simp [xmlAssemble]
    have h1 : XmlTree.render (XmlTree.node "interface-information".data kids)
          ++ xmlAssemble g1 ps
        = ('<' :: "interface-information".data)
          ++ ('>' :: (XmlKids.render kids
            ++ ('<' :: '/' :: ("interface-information".data
              ++ ('>' :: xmlAssemble g1 ps))))) := by
      simp [XmlTree.render]
    have hpre : ("<interface-information".data).isPrefixOf
        (XmlTree.render (XmlTree.node "interface-information".data kids)
          ++ xmlAssemble g1 ps) = true := by
      rw [h1, ← hpat]
      exact List.isPrefixOf_iff_prefix.mpr (List.prefix_append _ _)
    have hshape : ∃ rt,
        XmlTree.render (XmlTree.node "interface-information".data kids)
          ++ xmlAssemble g1 ps = '<' :: rt := by
      refine ⟨"interface-information".data
        ++ ('>' :: (XmlKids.render kids
          ++ ('<' :: '/' :: ("interface-information".data
            ++ ('>' :: xmlAssemble g1 ps))))), ?_⟩
      rw [h1, List.cons_append]
    have hfind : findSubIdx "<interface-information".data
        (g0 ++ (XmlTree.render (XmlTree.node "interface-information".data kids)
          ++ xmlAssemble g1 ps)) = some g0.length :=
      findSubIdx_skip htail g0 _ hg0 hpre hshape
    have hscan : xscan ((g0
          ++ (XmlTree.render (XmlTree.node "interface-information".data kids)
            ++ xmlAssemble g1 ps)).drop g0.length) 0
        = XScanRes.found
          (XmlTree.render
            (XmlTree.node "interface-information".data kids)).length := by
      rw [List.drop_left]
      exact xscan_top _ kids hxwf (xmlAssemble g1 ps)
    have hps : ps.length < f := by
      simp only [List.length_cons] at hfuel
      omega
    rw [hsplit, xblocksGo_step f _ g0.length _ hfind hscan, List.drop_left,
      List.take_left, List.drop_left,
      xblocksGo_assemble ps g1 f hps (fun q hq => hp q (by simp [hq])) hg1]
    simp

/-- C8: for every text assembled from N disjoint rendered well-formed
`<interface-information>` elements separated by occurrence-free garbage,
the XML block extractor returns exactly the N rendered spans, in order of
occurrence — not just the first one. -/
theorem extract_all_xml_blocks_complete
    (g0 : List Char) (parts : List (XmlTree × List Char))
    (hp : ∀ p ∈ parts,
      (∃ kids, p.1 = XmlTree.node "interface-information".data kids)
      ∧ p.1.wf = true
      ∧ listSubOf "<interface-information".data p.2 = false)
    (hg0 : listSubOf "<interface-information".data g0 = false) :
    _extract_all_xml_interface_information_blocks (xmlAssemble g0 parts)
      = parts.map (fun p => XmlTree.render p.1) := by
  rw [_extract_all_xml_interface_information_blocks]
  refine xblocksGo_assemble parts g0 _ ?_ hp hg0
  have hb := xmlAssemble_length_ge parts g0 (fun p hp' => by
    obtain ⟨kids, hk⟩ := (hp p hp').1
    exact ⟨_, kids, hk⟩)
  omega

/-- Witness for C8 on a two-block text with garbage before, between and
inside the blocks. -/
theorem extract_all_xml_blocks_complete_witness :
    _extract_all_xml_interface_information_blocks
        (xmlAssemble "noise ".data
          [(XmlTree.node "interface-information".data
              (XmlKids.cons
                (XmlTree.node "physical-interface".data
                  (XmlKids.cons (XmlTree.chunk "et-0/0/1".data) XmlKids.nil))
                XmlKids.nil), " mid ".data),
           (XmlTree.node "interface-information".data XmlKids.nil, [])])
      = [(XmlTree.node "interface-information".data
            (XmlKids.cons
              (XmlTree.node "physical-interface".data
                (XmlKids.cons (XmlTree.chunk "et-0/0/1".data) XmlKids.nil))
              XmlKids.nil), (" mid ".data : List Char)),
         (XmlTree.node "interface-information".data XmlKids.nil,
            ([] : List Char))].map (fun p => XmlTree.render p.1) := by
  refine extract_all_xml_blocks_complete _ _ ?_ (by decide)
  intro p hp'
  rcases List.mem_cons.mp hp' with rfl | hp'
  · exact ⟨⟨_, rfl⟩, by decide, by decide⟩
  rcases List.mem_cons.mp hp' with rfl | hp'
  · exact ⟨⟨_, rfl⟩, by decide, by decide⟩
  · cases hp'


end UplinkStats
